import Mathlib

/-!
A verification development for the transcript ingestion-and-fan-out pipeline
of the ccobservatory backend (Python sources under `backend/app`).

The Python components are shallowly embedded as executable Lean functions:

* `backend/app/monitoring/jsonl_parser.py`   → the `JsonlParser` namespace
* `backend/app/monitoring/database_writer.py` → the `DbWriter` namespace
* `backend/app/monitoring/performance_monitor.py` → the `PerfMon` namespace
* `backend/app/websocket/connection_manager.py` → the `ConnMgr` namespace

Conventions used throughout the embedding:

* A JSON value produced by `json.loads` is modelled by `JVal`; a line that
  fails `json.loads` is modelled as `Option.none`.
* Python exceptions on the modelled per-record paths are turned into
  `Except`/`Option` results, mirroring the source's own `try`/`except`
  recovery points.
* `uuid4()` results are modelled as values drawn from an explicit supply
  passed in by the caller (the model is parametric in them).
* Wall-clock readings (`datetime.utcnow()`, `time.perf_counter()`) are
  modelled as explicit `String` parameters; elapsed-time metrics are not
  modelled.
-/

/-- A JSON value as produced by Python's `json.loads`: null, booleans,
numbers, strings, arrays and objects.  Numbers are modelled as rationals
(JSON numbers in transcript files are integral or decimal literals).
Objects are association lists; `json.loads` yields unique keys. -/
inductive JVal : Type where
  | null : JVal
  | bool (b : Bool) : JVal
  | num (q : ℚ) : JVal
  | str (s : String) : JVal
  | arr (xs : List JVal) : JVal
  | obj (fields : List (String × JVal)) : JVal
  deriving Repr

mutual

/-- Structural equality of JSON values, modelling Python `==` (used for
`dict` key comparison in the parser's tool-call table). -/
def JVal.beq : JVal → JVal → Bool
  | .null, .null => true
  | .bool a, .bool b => a == b
  | .num a, .num b => a == b
  | .str a, .str b => a == b
  | .arr xs, .arr ys => JVal.beqList xs ys
  | .obj xs, .obj ys => JVal.beqFields xs ys
  | _, _ => false

/-- Elementwise `JVal.beq` on arrays. -/
def JVal.beqList : List JVal → List JVal → Bool
  | [], [] => true
  | x :: xs, y :: ys => JVal.beq x y && JVal.beqList xs ys
  | _, _ => false

/-- Elementwise `JVal.beq` on object field lists. -/
def JVal.beqFields : List (String × JVal) → List (String × JVal) → Bool
  | [], [] => true
  | (k₁, v₁) :: xs, (k₂, v₂) :: ys => k₁ == k₂ && JVal.beq v₁ v₂ && JVal.beqFields xs ys
  | _, _ => false

end

namespace JVal

/-- Python `dict.get(k)` on a JSON object: first binding wins (keys of a
`json.loads` object are unique).  Returns `none` on absent key. -/
def lookup : JVal → String → Option JVal
  | .obj fields, k => (fields.find? (fun f => f.1 = k)).map (·.2)
  | _, _ => none

/-- Python truthiness of a JSON value: `None`, `False`, `0`, `""`, `[]`
and `{}` are falsy, everything else truthy. -/
def truthy : JVal → Bool
  | .null => false
  | .bool b => b
  | .num q => q != 0
  | .str s => s != ""
  | .arr xs => !xs.isEmpty
  | .obj fields => !fields.isEmpty

/-- Whether the value is a dict (`isinstance(x, dict)`). -/
def isDict : JVal → Bool
  | .obj _ => true
  | _ => false

/-- Whether the value is a list (`isinstance(x, list)`). -/
def isList : JVal → Bool
  | .arr _ => true
  | _ => false

/-- Whether the value is a string (`isinstance(x, str)`). -/
def isStr : JVal → Bool
  | .str _ => true
  | _ => false

/-- The string payload, when the value is a string. -/
def asStr? : JVal → Option String
  | .str s => some s
  | _ => none

end JVal

/-! ## Timestamps

`backend/app/models/contracts.py` stores message timestamps as Python
`datetime` values; `jsonl_parser.py` builds them with
`datetime.fromisoformat(raw["timestamp"].replace("Z", "+00:00"))`.
`PyDateTime` models an (optionally timezone-aware) `datetime`, and
`parseIsoTimestamp` models `datetime.fromisoformat` on the ISO-8601 subset
occurring in transcript files: `YYYY-MM-DDTHH:MM:SS`, an optional
fractional-seconds part of one to six digits, and an optional
`+HH:MM`/`-HH:MM` offset. -/

/-- A Python `datetime`: calendar fields plus an optional UTC offset in
minutes (`none` models a naive datetime). -/
structure PyDateTime where
  year : Nat
  month : Nat
  day : Nat
  hour : Nat
  minute : Nat
  second : Nat
  micro : Nat
  utcOffsetMinutes : Option Int := none
  deriving Repr, DecidableEq

/-- Number of leap years strictly before year `y` (proleptic Gregorian). -/
def leapYearsBefore (y : Nat) : Nat := (y - 1) / 4 - (y - 1) / 100 + (y - 1) / 400

/-- Whether `y` is a leap year. -/
def isLeapYear (y : Nat) : Bool := (y % 4 = 0 && y % 100 ≠ 0) || y % 400 = 0

/-- Days in a month of a given year. -/
def daysInMonth (y m : Nat) : Nat :=
  if m = 2 then (if isLeapYear y then 29 else 28)
  else if m = 4 || m = 6 || m = 9 || m = 11 then 30
  else 31

/-- Days in the months of year `y` strictly before month `m`. -/
def daysBeforeMonth (y m : Nat) : Nat :=
  (List.range m).foldl (fun acc i => if 1 ≤ i then acc + daysInMonth y i else acc) 0

/-- Day number of a proleptic-Gregorian calendar date (day 0 = 0001-01-01). -/
def civilDayNumber (y m d : Nat) : Nat :=
  365 * (y - 1) + leapYearsBefore y + daysBeforeMonth y m + (d - 1)

/-- The instant a `PyDateTime` denotes, in microseconds from midnight of
0001-01-01 UTC; a naive datetime is linearized with offset 0.  Python
orders aware datetimes by this instant. -/
def PyDateTime.instantMicros (t : PyDateTime) : Int :=
  ((civilDayNumber t.year t.month t.day : Int) * 86400
      + (t.hour : Int) * 3600 + (t.minute : Int) * 60 + (t.second : Int)) * 1000000
    + (t.micro : Int) - (t.utcOffsetMinutes.getD 0) * 60000000

/-- Interpret a list of decimal digit characters. -/
def digitsToNat : List Char → Option Nat
  | [] => some 0
  | c :: cs =>
    if c.isDigit then
      (digitsToNat cs).map (fun n => (c.toNat - '0'.toNat) * 10 ^ cs.length + n)
    else none

/-- Parse the optional fractional-seconds part, returning microseconds and
the rest of the input. -/
def parseFraction : List Char → Option (Nat × List Char)
  | '.' :: rest =>
    let digits := rest.takeWhile Char.isDigit
    let remaining := rest.dropWhile Char.isDigit
    if 1 ≤ digits.length ∧ digits.length ≤ 6 then
      (digitsToNat digits).map (fun n => (n * 10 ^ (6 - digits.length), remaining))
    else none
  | rest => some (0, rest)

/-- Parse the optional `±HH:MM` UTC offset terminating the string. -/
def parseOffset : List Char → Option (Option Int)
  | [] => some none
  | sign :: h1 :: h2 :: ':' :: m1 :: m2 :: [] =>
    if sign = '+' ∨ sign = '-' then
      match digitsToNat [h1, h2], digitsToNat [m1, m2] with
      | some hh, some mm =>
        if hh ≤ 23 ∧ mm ≤ 59 then
          let mins : Int := (hh : Int) * 60 + (mm : Int)
          some (some (if sign = '-' then -mins else mins))
        else none
      | _, _ => none
    else none
  | _ => none

/-- Models `datetime.fromisoformat` on the transcript subset (see above).
Returns `none` where Python raises `ValueError`. -/
def parseIsoTimestamp (s : String) : Option PyDateTime :=
  match s.toList with
  | y1 :: y2 :: y3 :: y4 :: '-' :: m1 :: m2 :: '-' :: d1 :: d2 :: 'T'
      :: h1 :: h2 :: ':' :: mi1 :: mi2 :: ':' :: s1 :: s2 :: rest =>
    match digitsToNat [y1, y2, y3, y4], digitsToNat [m1, m2], digitsToNat [d1, d2],
        digitsToNat [h1, h2], digitsToNat [mi1, mi2], digitsToNat [s1, s2] with
    | some y, some mo, some d, some h, some mi, some sec =>
      match parseFraction rest with
      | some (micro, rest2) =>
        match parseOffset rest2 with
        | some off =>
          if 1 ≤ mo ∧ mo ≤ 12 ∧ 1 ≤ d ∧ d ≤ daysInMonth y mo ∧ h ≤ 23 ∧ mi ≤ 59 ∧ sec ≤ 59 then
            some ⟨y, mo, d, h, mi, sec, micro, off⟩
          else none
        | none => none
      | none => none
    | _, _, _, _, _, _ => none
  | _ => none

/-! ## Contract models (`backend/app/models/contracts.py`)

Pydantic models are embedded as structures.  UUID-valued fields are
modelled as `Nat` (`uuid4()` results come from an explicit supply).
`ProcessingError`'s free-text `error_message`, `failed_at` and
`original_event` fields are logging-only and are not modelled; its
`error_type` and `component` fields are kept verbatim. -/

/-- `contracts.ToolUsage`: one tool invocation.  `tool_input` and
`tool_output` are `dict[str, Any]` values (`tool_output` optional);
`status` is one of `"pending"`, `"success"`, `"error"` when present. -/
structure ToolUsage where
  tool_name : String
  tool_input : List (String × JVal)
  tool_output : Option (List (String × JVal)) := none
  status : Option String := none
  deriving Repr

/-- `contracts.ParsedMessage`: one transcript line. -/
structure ParsedMessage where
  id : Option Nat := none
  conversation_id : Nat
  message_id : String
  parent_id : Option String := none
  timestamp : PyDateTime
  role : String
  content : String
  tool_usage : Option (List ToolUsage) := none
  deriving Repr

/-- `contracts.ConversationData`: one parsed transcript file.  Note that
the pydantic model declares no `file_path` field, and its configuration
ignores extra constructor keywords, so the `file_path=...` argument passed
by `jsonl_parser.parse_conversation_file` is silently dropped. -/
structure ConversationData where
  id : Option Nat := none
  project_id : Nat
  session_id : String
  title : Option String := none
  message_count : Nat := 0
  messages : List ParsedMessage := []
  created_at : Option PyDateTime := none
  updated_at : Option PyDateTime := none
  deriving Repr

/-- `contracts.ProcessingError` (the claim-relevant fields). -/
structure ProcessingError where
  error_type : String
  component : Option String := none
  deriving Repr, DecidableEq

/-! ## JSONL parser (`backend/app/monitoring/jsonl_parser.py`)

`parse_line` takes a raw text line and runs `json.loads` on it; the model
takes the outcome of `json.loads` directly: `none` models a line that
raises `JSONDecodeError`, `some j` a line that parses to the value `j`.
Python exceptions on the modelled paths (`TypeError`/`KeyError`/
`IndexError`/pydantic validation errors) are all caught by the source's
`except Exception` handler in `_extract_message_data` and reported as an
`ExtractionError`; the model returns `Except.error` at the corresponding
points.  `uuid4()` for the per-line `conversation_id` is modelled by an
explicit `freshConvId` argument (the file-level code overwrites it for
every message anyway). -/

namespace JsonlParser

/-- The parser's statistics counters (`JSONLParser.__init__` /
`reset_stats`). -/
structure Stats where
  lines_processed : Nat
  messages_parsed : Nat
  parse_errors : Nat
  validation_errors : Nat
  deriving Repr, DecidableEq

/-- The counter values set by `__init__` and `reset_stats`. -/
def initStats : Stats := ⟨0, 0, 0, 0⟩

/-- Whether `needle` occurs as a contiguous substring of `hay`. -/
def listIsInfix (needle hay : List Char) : Bool :=
  (List.range (hay.length + 1)).any (fun i => needle.isPrefixOf (hay.drop i))

/-- Python `k in x` for a JSON value: key containment for dicts, element
equality for lists, substring test for strings; `none` models the
`TypeError` raised for other values. -/
def pyContains (x : JVal) (k : String) : Option Bool :=
  match x with
  | .obj fields => some (fields.any (fun f => f.1 == k))
  | .arr xs => some (xs.any (fun v => JVal.beq v (.str k)))
  | .str s => some (listIsInfix k.toList s.toList)
  | _ => none

/-- Python `x[k]` with a string key: dict lookup; `none` models the
`KeyError`/`TypeError` raised for missing keys or non-dict values. -/
def pyIndex (x : JVal) (k : String) : Option JVal :=
  match x with
  | .obj _ => x.lookup k
  | _ => none

/-- `JSONLParser._extract_content`.  Returns the extracted text; `none`
models the `TypeError` raised by `"\n".join` when a text block's `text`
field is not a string. -/
def extractContent (contentData : JVal) : Option String :=
  match contentData with
  | .str s => some s
  | .arr blocks =>
    let parts := blocks.filterMap (fun b =>
      match b with
      | .obj _ =>
        match b.lookup "type" with
        | some (.str "text") => some ((b.lookup "text").getD (.str ""))
        | _ => none
      | _ => none)
    (parts.mapM JVal.asStr?).map (String.intercalate "\n")
  | _ => some ""

/-- Truthiness of a `dict.get` result (`None` for an absent key). -/
def truthyOpt : Option JVal → Bool
  | none => false
  | some v => v.truthy

/-- Lookup in the `tool_calls` dict (keys compared with Python `==`). -/
def lookupCall : List (JVal × Nat) → JVal → Option Nat
  | [], _ => none
  | (k, v) :: rest, key => if JVal.beq key k then some v else lookupCall rest key

/-- Assignment `tool_calls[key] = idx` (overwrite or append). -/
def setCall : List (JVal × Nat) → JVal → Nat → List (JVal × Nat)
  | [], key, idx => [(key, idx)]
  | (k, v) :: rest, key, idx =>
    if JVal.beq k key then (key, idx) :: rest else (k, v) :: setCall rest key idx

/-- `ToolUsage(tool_name=name, tool_input=input, status="pending")` with
pydantic field validation: `tool_name` must be a string and `tool_input`
a dict, otherwise construction raises (`none`). -/
def mkToolUsage (name input : JVal) : Option ToolUsage :=
  match name, input with
  | .str n, .obj fs => some { tool_name := n, tool_input := fs, status := some "pending" }
  | _, _ => none

/-- Pydantic re-validation of the `tool_output` assignment
(`validate_assignment=True` on `ContractBase`): `Optional[dict[str, Any]]`
accepts an absent value, `null` or a dict; any other JSON value raises
(`none`). -/
def asToolOutput : Option JVal → Option (Option (List (String × JVal)))
  | none => some none
  | some .null => some none
  | some (.obj fs) => some (some fs)
  | some _ => none

/-- One iteration of the `_extract_tool_usage` block loop on the state
(`tools`, `tool_calls`): skip non-dict and unrecognized blocks; register
a `tool_use` with truthy `id` and `name` (construction may raise,
`none`); resolve a `tool_result` against the recorded index (assignment
validation or `IndexError` may raise). -/
def toolStep (block : JVal) (tools : List ToolUsage) (calls : List (JVal × Nat)) :
    Option (List ToolUsage × List (JVal × Nat)) :=
  match block with
  | .obj _ =>
    match block.lookup "type" with
    | some (.str "tool_use") =>
      match block.lookup "id", block.lookup "name" with
      | some idVal, some nameVal =>
        if idVal.truthy && nameVal.truthy then
          match mkToolUsage nameVal ((block.lookup "input").getD (.obj [])) with
          | some tu => some (tools ++ [tu], setCall calls idVal tools.length)
          | none => none
        else some (tools, calls)
      | _, _ => some (tools, calls)
    | some (.str "tool_result") =>
      match block.lookup "tool_use_id" with
      | none => some (tools, calls)
      | some key =>
        match lookupCall calls key with
        | none => some (tools, calls)
        | some idx =>
          match asToolOutput (block.lookup "content") with
          | none => none
          | some out =>
            match tools[idx]? with
            | none => none
            | some tu =>
              let isError := (block.lookup "is_error").getD (.bool false)
              some (tools.set idx { tu with
                tool_output := out,
                status := some (if isError.truthy then "error" else "success") }, calls)
    | _ => some (tools, calls)
  | _ => some (tools, calls)

/-- The block loop of `JSONLParser._extract_tool_usage` (the body of each
iteration is `toolStep`), returning the final `tools` list.  `none`
models an exception escaping the loop. -/
def extractToolUsageGo : List JVal → List ToolUsage → List (JVal × Nat) → Option (List ToolUsage)
  | [], tools, _ => some tools
  | block :: rest, tools, calls =>
    match toolStep block tools calls with
    | none => none
    | some (tools2, calls2) => extractToolUsageGo rest tools2 calls2

/-- `JSONLParser._extract_tool_usage`. -/
def extractToolUsage (contentData : JVal) : Option (List ToolUsage) :=
  match contentData with
  | .arr blocks => extractToolUsageGo blocks [] []
  | _ => some []

/-- The required top-level fields of a transcript line. -/
def requiredFields : List String := ["uuid", "sessionId", "timestamp", "type", "message"]

/-- The `ProcessingError` produced by `_extract_message_data`'s
`except Exception` handler. -/
def extractionError : ProcessingError := ⟨"ExtractionError", some "JSONLParser"⟩

/-- The `ProcessingError` produced for shape/contract violations. -/
def validationError : ProcessingError := ⟨"ValidationError", some "JSONLParser"⟩

/-- The `ProcessingError` produced for malformed JSON. -/
def jsonDecodeError : ProcessingError := ⟨"JSONDecodeError", some "JSONLParser"⟩

/-- `timestamp.replace("Z", "+00:00")`: the pattern is a single character,
so Python's all-occurrence replacement is the per-character substitution
of `"+00:00"` for `'Z'`. -/
def replaceZ (s : String) : String :=
  String.mk (s.toList.foldr (fun c acc => (if c = 'Z' then "+00:00".toList else [c]) ++ acc) [])

/-- `JSONLParser._extract_message_data`, in source order: required-field
check, message/role checks, content extraction, tool-usage extraction,
timestamp parsing, then `ParsedMessage` construction (with pydantic field
validation for `message_id` and `parent_id`). -/
def extractMessageData (freshConvId : Nat) (raw : JVal) : Except ProcessingError ParsedMessage :=
  match requiredFields.mapM (pyContains raw) with
  | none => .error extractionError
  | some presence =>
    if presence.any (fun b => !b) then .error validationError
    else
      match pyIndex raw "message" with
      | none => .error extractionError
      | some md =>
        match md.lookup "role" with
        | none => .error validationError
        | some role =>
          match role with
          | .str r =>
            if r = "user" ∨ r = "assistant" then
              match extractContent ((md.lookup "content").getD (.str "")) with
              | none => .error extractionError
              | some content =>
                match extractToolUsage ((md.lookup "content").getD (.arr [])) with
                | none => .error extractionError
                | some tools =>
                  match pyIndex raw "timestamp" with
                  | none => .error extractionError
                  | some tsv =>
                    match tsv with
                    | .str ts =>
                      match parseIsoTimestamp (replaceZ ts) with
                      | none => .error validationError
                      | some t =>
                        match pyIndex raw "uuid" with
                        | some (.str u) =>
                          match raw.lookup "parentUuid" with
                          | none =>
                            .ok { conversation_id := freshConvId, message_id := u,
                                  parent_id := none, timestamp := t, role := r,
                                  content := content,
                                  tool_usage := if tools.isEmpty then none else some tools }
                          | some .null =>
                            .ok { conversation_id := freshConvId, message_id := u,
                                  parent_id := none, timestamp := t, role := r,
                                  content := content,
                                  tool_usage := if tools.isEmpty then none else some tools }
                          | some (.str p) =>
                            .ok { conversation_id := freshConvId, message_id := u,
                                  parent_id := some p, timestamp := t, role := r,
                                  content := content,
                                  tool_usage := if tools.isEmpty then none else some tools }
                          | some _ => .error extractionError
                        | _ => .error extractionError
                    | _ => .error validationError
            else .error validationError
          | _ => .error validationError

/-- `JSONLParser.parse_line`: bump `lines_processed`, then record exactly
one outcome.  The input is the result of `json.loads` on the stripped
line (`none` = `JSONDecodeError`). -/
def parseLine (freshConvId : Nat) (st : Stats) (input : Option JVal) :
    Stats × Except ProcessingError ParsedMessage :=
  let st := { st with lines_processed := st.lines_processed + 1 }
  match input with
  | none =>
    ({ st with parse_errors := st.parse_errors + 1 }, .error jsonDecodeError)
  | some raw =>
    match extractMessageData freshConvId raw with
    | .error e => ({ st with validation_errors := st.validation_errors + 1 }, .error e)
    | .ok m => ({ st with messages_parsed := st.messages_parsed + 1 }, .ok m)

/-- One physical line of a transcript file, as seen by
`parse_conversation_file`: blank (skipped before `parse_line`), malformed
JSON, or a line holding the JSON value `j`. -/
inductive SrcLine : Type where
  | blank : SrcLine
  | malformed : SrcLine
  | jsonLine (j : JVal) : SrcLine
  deriving Repr

/-- The line loop of `parse_conversation_file`: skip blank lines, parse
the rest, drop per-line errors, set `session_id` to the path-hash
placeholder on the first success. -/
def parseFileGo (pyHash : String → Int) (filePath : String) (freshConvId : Nat) :
    List SrcLine → Stats → List ParsedMessage → Option String →
    Stats × List ParsedMessage × Option String
  | [], st, msgs, sid => (st, msgs, sid)
  | line :: rest, st, msgs, sid =>
    match line with
    | .blank => parseFileGo pyHash filePath freshConvId rest st msgs sid
    | .malformed =>
      let (st', r) := parseLine freshConvId st none
      match r with
      | .error _ => parseFileGo pyHash filePath freshConvId rest st' msgs sid
      | .ok m =>
        let sid' := if sid.isNone then some ("file_" ++ toString (pyHash filePath)) else sid
        parseFileGo pyHash filePath freshConvId rest st' (msgs ++ [m]) sid'
    | .jsonLine j =>
      let (st', r) := parseLine freshConvId st (some j)
      match r with
      | .error _ => parseFileGo pyHash filePath freshConvId rest st' msgs sid
      | .ok m =>
        let sid' := if sid.isNone then some ("file_" ++ toString (pyHash filePath)) else sid
        parseFileGo pyHash filePath freshConvId rest st' (msgs ++ [m]) sid'

/-- `JSONLParser.parse_conversation_file` on a successfully opened file.
`pyHash` models Python's process-seeded `hash`; `freshProjectId` and
`freshConvId` model the two `uuid4()` calls.  Every message's
`conversation_id` is overwritten with the fresh conversation id; the
`session_id` is the `"file_<hash>"` placeholder (the source's
`# Temporary - should be from actual data`). -/
def parseConversationFile (pyHash : String → Int) (freshProjectId freshConvId : Nat)
    (st : Stats) (filePath : String) (lines : List SrcLine) :
    Stats × Except ProcessingError ConversationData :=
  let (st', msgs, sid) := parseFileGo pyHash filePath freshConvId lines st [] none
  if msgs.isEmpty then
    (st', .error ⟨"EmptyFile", some "JSONLParser"⟩)
  else
    let messages := msgs.map (fun m => { m with conversation_id := freshConvId })
    (st', .ok { id := some freshConvId, project_id := freshProjectId,
                session_id := sid.getD "unknown",
                title := some ("Conversation from " ++ filePath),
                message_count := messages.length,
                messages := messages })

end JsonlParser

/-! ## Database writer (`backend/app/monitoring/database_writer.py`)

The Supabase/PostgREST backend is modelled as an in-memory pair of tables
(`DbState`); the model covers the error-free path, so the source's
three-attempt retry loops (which only re-run the same request on
`APIError`) degenerate to a single attempt, and wall-clock write metrics
are not modelled.  Fresh conversation primary keys are drawn from a
counter in the state, modelling ids returned by the backend's insert.

The conversation payload is `model_dump(exclude={"messages", "id",
"created_at", "updated_at"}, exclude_none=True)`: the fields `project_id`,
`session_id`, `message_count`, and `title` only when set.  The message
payload is `model_dump(exclude={"id", "message_id"}, exclude_none=True)`
— note it excludes `message_id`, and `_batch_upsert_messages` issues a
plain `.insert(...)` (its docstring and the repository's own test expect
`.upsert(..., on_conflict="conversation_id, message_id")`). -/

namespace DbWriter

/-- A row of the `conversations` table (payload columns). -/
structure ConvRow where
  id : Nat
  project_id : Nat
  session_id : String
  title : Option String
  message_count : Nat
  deriving Repr, DecidableEq

/-- A row of the `messages` table as the writer inserts it: exactly the
payload columns of `msg.model_dump(exclude={"id", "message_id"},
exclude_none=True)`, with `conversation_id` overwritten.  There is no
`message_id` column value. -/
structure MsgRow where
  conversation_id : Nat
  parent_id : Option String
  timestamp : PyDateTime
  role : String
  content : String
  tool_usage : Option (List ToolUsage)
  deriving Repr

/-- The two logical tables plus the backend's fresh-id counter. -/
structure DbState where
  conversations : List ConvRow
  messages : List MsgRow
  nextConvId : Nat
  deriving Repr

/-- The writer's statistics counters. -/
structure WriterStats where
  conversations_written : Nat
  conversations_updated : Nat
  messages_written : Nat
  write_errors : Nat
  deriving Repr, DecidableEq

/-- The counter values set by `__init__` and `reset_stats`. -/
def initWriterStats : WriterStats := ⟨0, 0, 0, 0⟩

/-- An empty database. -/
def emptyDb : DbState := ⟨[], [], 0⟩

/-- The read step: `select("id").eq("project_id", ...).eq("session_id",
...).limit(1)` — the first matching row. -/
def findConversation (db : DbState) (pid : Nat) (sid : String) : Option ConvRow :=
  db.conversations.find? (fun r => r.project_id == pid && r.session_id == sid)

/-- `DatabaseWriter._write_conversation_record` (read-then-write): update
the existing row keyed by its id, or insert a new row adopting a fresh
id.  An UPDATE only touches payload columns present in the dump, so a
`None` title leaves the stored title unchanged (`exclude_none=True`). -/
def writeConversationRecord (st : WriterStats) (db : DbState) (c : ConversationData) :
    WriterStats × DbState × Nat :=
  match findConversation db c.project_id c.session_id with
  | some r =>
    let updated : ConvRow :=
      { r with project_id := c.project_id, session_id := c.session_id,
               message_count := c.message_count,
               title := if c.title.isSome then c.title else r.title }
    ({ st with conversations_updated := st.conversations_updated + 1 },
     { db with conversations := db.conversations.map (fun q => if q.id = r.id then updated else q) },
     r.id)
  | none =>
    let row : ConvRow :=
      { id := db.nextConvId, project_id := c.project_id, session_id := c.session_id,
        title := c.title, message_count := c.message_count }
    ({ st with conversations_written := st.conversations_written + 1 },
     { db with conversations := db.conversations ++ [row], nextConvId := db.nextConvId + 1 },
     row.id)

/-- The message payload sent to the backend for one message. -/
def msgPayload (convId : Nat) (m : ParsedMessage) : MsgRow :=
  { conversation_id := convId, parent_id := m.parent_id, timestamp := m.timestamp,
    role := m.role, content := m.content, tool_usage := m.tool_usage }

/-- `DatabaseWriter._batch_upsert_messages`: despite its name, issues a
plain batch `.insert(messages_payload)`, appending one row per message
unconditionally. -/
def batchUpsertMessages (db : DbState) (convId : Nat) (msgs : List ParsedMessage) : DbState :=
  if msgs.isEmpty then db
  else { db with messages := db.messages ++ msgs.map (msgPayload convId) }

/-- `DatabaseWriter.write_conversation` on the error-free path: the
conversation read-then-write step, then the message batch step (skipped
when the conversation has no messages).  Returns the adopted
conversation id. -/
def writeConversation (st : WriterStats) (db : DbState) (c : ConversationData) :
    WriterStats × DbState × Nat :=
  let (st1, db1, convId) := writeConversationRecord st db c
  if c.messages.isEmpty then (st1, db1, convId)
  else
    let db2 := batchUpsertMessages db1 convId c.messages
    ({ st1 with messages_written := st1.messages_written + c.messages.length }, db2, convId)

end DbWriter

/-! ## Performance monitor (`backend/app/monitoring/performance_monitor.py`)

The three `deque(maxlen=max_samples)` ring buffers are lists holding the
most recent `max_samples` entries, oldest first.  `get_summary`'s
statistical payload (min/mean/median/p95/p99/stddev, recent averages,
buffer sizes, `last_reset`) is reported alongside the claim-relevant
`status` field; the model defines the `status` computation and the
compliance rate it is derived from.  Latencies are modelled as rationals. -/

namespace PerfMon

/-- `contracts.PerformanceMetrics` (the recorded fields). -/
structure Metrics where
  detection_latency_ms : ℚ
  processing_latency_ms : ℚ
  throughput_msgs_per_sec : ℚ
  deriving Repr, DecidableEq

/-- The monitor's state: configuration, ring buffers and counters. -/
structure PMState where
  max_samples : Nat
  sla_threshold_ms : ℚ
  detection_latencies : List ℚ
  processing_latencies : List ℚ
  throughput_samples : List ℚ
  total_samples : Nat
  sla_violations : Nat
  peak_detection_latency_ms : ℚ
  peak_processing_latency_ms : ℚ
  peak_throughput_msgs_per_sec : ℚ
  deriving Repr

/-- `PerformanceMonitor.__init__` (defaults: 1000 samples, 100 ms). -/
def initPM (maxSamples : Nat) (slaThreshold : ℚ) : PMState :=
  { max_samples := maxSamples, sla_threshold_ms := slaThreshold,
    detection_latencies := [], processing_latencies := [], throughput_samples := [],
    total_samples := 0, sla_violations := 0,
    peak_detection_latency_ms := 0, peak_processing_latency_ms := 0,
    peak_throughput_msgs_per_sec := 0 }

/-- `deque.append` on a `deque(maxlen=n)`: append and keep the last `n`. -/
def dequeAppend (n : Nat) (xs : List ℚ) (x : ℚ) : List ℚ :=
  let ys := xs ++ [x]
  ys.drop (ys.length - n)

/-- `PerformanceMonitor.record_metrics`: append to the ring buffers, bump
`total_samples`, count an SLA violation iff the detection latency
strictly exceeds the threshold, and update the peaks. -/
def recordMetrics (st : PMState) (m : Metrics) : PMState :=
  { st with
    detection_latencies := dequeAppend st.max_samples st.detection_latencies m.detection_latency_ms,
    processing_latencies := dequeAppend st.max_samples st.processing_latencies m.processing_latency_ms,
    throughput_samples := dequeAppend st.max_samples st.throughput_samples m.throughput_msgs_per_sec,
    total_samples := st.total_samples + 1,
    sla_violations :=
      st.sla_violations + (if m.detection_latency_ms > st.sla_threshold_ms then 1 else 0),
    peak_detection_latency_ms :=
      if m.detection_latency_ms > st.peak_detection_latency_ms then m.detection_latency_ms
      else st.peak_detection_latency_ms,
    peak_processing_latency_ms :=
      if m.processing_latency_ms > st.peak_processing_latency_ms then m.processing_latency_ms
      else st.peak_processing_latency_ms,
    peak_throughput_msgs_per_sec :=
      if m.throughput_msgs_per_sec > st.peak_throughput_msgs_per_sec then m.throughput_msgs_per_sec
      else st.peak_throughput_msgs_per_sec }

/-- `sla_compliance_rate = 1.0 - violations / max(1, total)`. -/
def slaComplianceRate (st : PMState) : ℚ :=
  1 - (st.sla_violations : ℚ) / (max 1 st.total_samples : ℚ)

/-- The `status` field of `PerformanceMonitor.get_summary`: `"no_data"`
for an empty buffer, else `ComponentStatus` by compliance-rate bands
(`use_enum_values` serializes the enum to `"ok"`/`"degraded"`/
`"unavailable"`). -/
def getSummaryStatus (st : PMState) : String :=
  if st.detection_latencies.isEmpty then "no_data"
  else if slaComplianceRate st ≥ 99 / 100 then "ok"
  else if slaComplianceRate st ≥ 95 / 100 then "degraded"
  else "unavailable"

end PerfMon

/-! ## Connection manager (`backend/app/websocket/connection_manager.py`)

The registry state keeps the `active_connections` dict as its key list in
insertion order (the sockets themselves are external), the
`subscriptions` index, and the per-client metadata.  Whether
`websocket.send_text` raises for a given client is modelled by a
`sendFails` predicate covering the caught classes
(`WebSocketDisconnect`/`RuntimeError`); `datetime.utcnow()` readings are
modelled by an explicit `now` string.  A producer-supplied message value
that `json.dumps` cannot encode is modelled by `PyVal.unencodable`.
`broadcast` returns, besides the source's `failed_clients` list, the list
of clients whose send succeeded (the delivered frames), so that theorems
can speak about what was sent. -/

namespace ConnMgr

/-- A producer-side payload value: either a JSON-encodable value or a
value `json.dumps` rejects with `TypeError`/`ValueError`. -/
inductive PyVal : Type where
  | json (j : JVal) : PyVal
  | unencodable : PyVal
  deriving Repr

/-- Whether `json.dumps` succeeds on the value. -/
def PyVal.serializable : PyVal → Bool
  | .json _ => true
  | .unencodable => false

/-- The producer-supplied `message` dict of `broadcast`: its `type` and
`data` entries (`none` = key absent, defaulted by `message.get`). -/
structure BroadcastMessage where
  mtype : Option PyVal := none
  mdata : Option PyVal := none

/-- Per-client metadata (`client_metadata[client_id]`). -/
structure ClientMeta where
  connected_at : String
  subscriptions : List String
  message_count : Nat
  deriving Repr, DecidableEq

/-- The `ConnectionManager` state. -/
structure CMState where
  active_connections : List String
  subscriptions : List (String × List String)
  client_metadata : List (String × ClientMeta)
  deriving Repr

/-- `ConnectionManager.__init__`: no connections, three empty index sets. -/
def initCM : CMState :=
  { active_connections := [],
    subscriptions :=
      [("all_conversations", []), ("project_updates", []), ("file_events", [])],
    client_metadata := [] }

/-- The subscriber set for a key; `[]` both for an empty set and for a
key the index does not track (either way the key contributes no
subscribers to a broadcast). -/
def subsLookup (st : CMState) (k : String) : List String :=
  (((st.subscriptions.find? (fun p => p.1 = k))).map (fun p => p.2)).getD []

/-- Add a client to the index sets of the requested keys; keys not
already present in `self.subscriptions` are silently skipped
(`if subscription in self.subscriptions`). -/
def addToIndex (st : CMState) (subs : List String) (cid : String) : CMState :=
  { st with subscriptions := st.subscriptions.map (fun p =>
      if subs.contains p.1 then
        (p.1, if p.2.contains cid then p.2 else p.2 ++ [cid])
      else p) }

/-- `ConnectionManager.connect`: accept, mint the client id (modelled by
the `freshClientId` argument), register, index, store metadata, then send
the `connection_established` envelope via `_send_to_client` (which bumps
the client's `message_count`).  Returns the new state, the returned
client id and the envelope sent.  `subscriptions=None` and `[]` both fall
back to the defaults (`if not subscriptions`).  The model covers the
successful-send path. -/
def connect (st : CMState) (freshClientId : String) (now : String)
    (subsReq : Option (List String)) : CMState × String × JVal :=
  let subs := match subsReq with
    | none => ["all_conversations", "file_events"]
    | some [] => ["all_conversations", "file_events"]
    | some l => l
  let st1 := { st with active_connections := st.active_connections ++ [freshClientId] }
  let st2 := addToIndex st1 subs freshClientId
  let st3 := { st2 with client_metadata :=
      st2.client_metadata ++ [(freshClientId, ClientMeta.mk now subs 0)] }
  let envelope : JVal := .obj
    [("type", .str "connection_established"),
     ("data", .obj
       [("client_id", .str freshClientId),
        ("subscriptions", .arr (subs.map JVal.str)),
        ("server_time", .str now)]),
     ("timestamp", .str now)]
  let st4 := { st3 with client_metadata := st3.client_metadata.map (fun p =>
      if p.1 = freshClientId then (p.1, { p.2 with message_count := p.2.message_count + 1 })
      else p) }
  (st4, freshClientId, envelope)

/-- `ConnectionManager.disconnect`: discard the client from every index
set, the connection table and the metadata table. -/
def disconnect (st : CMState) (cid : String) : CMState :=
  { active_connections := st.active_connections.filter (fun c => c ≠ cid),
    subscriptions := st.subscriptions.map (fun p => (p.1, p.2.filter (fun c => c ≠ cid))),
    client_metadata := st.client_metadata.filter (fun p => p.1 ≠ cid) }

/-- The outcome of one `broadcast` call: the clients that received the
frame and the returned `failed_clients` list. -/
structure BroadcastResult where
  sent : List String
  failed : List String
  deriving Repr, DecidableEq

/-- Attempt a send to each client in order, partitioning into successes
and failures (`except (WebSocketDisconnect, RuntimeError)` appends to
`failed_clients` and continues). -/
def sendEach (clients : List String) (sendFails : String → Bool) : BroadcastResult :=
  ⟨clients.filter (fun c => !sendFails c), clients.filter sendFails⟩

/-- The set of clients a filtered broadcast iterates over
(`target_clients`), before the `in active_connections` membership check:
all connections for the `"all_conversations"` firehose, otherwise the
union of the filter's subscribers and the firehose subscribers. -/
def targetClients (st : CMState) (f : String) : List String :=
  if f = "all_conversations" then st.active_connections
  else (subsLookup st f ++ subsLookup st "all_conversations").dedup

/-- `ConnectionManager.broadcast`: canonicalize the envelope
(`type`/`data` defaults, fresh timestamp), serialize once — returning an
empty failed list and sending nothing if `json.dumps` raises — then fan
out to all connections (no filter) or to the target set restricted to
active connections (with filter). -/
def broadcast (st : CMState) (sendFails : String → Bool) (msg : BroadcastMessage)
    (filter : Option String) : BroadcastResult :=
  let typeVal := msg.mtype.getD (.json (.str "unknown"))
  let dataVal := msg.mdata.getD (.json (.obj []))
  if !(typeVal.serializable && dataVal.serializable) then ⟨[], []⟩
  else
    match filter with
    | none => sendEach st.active_connections sendFails
    | some f =>
      sendEach ((targetClients st f).filter (fun c => st.active_connections.contains c)) sendFails

/-- The registry invariant: every client id in any index set is an active
connection (`connect` adds to both; `disconnect` removes from all). -/
def IndexInvariant (st : CMState) : Prop :=
  ∀ p ∈ st.subscriptions, ∀ c ∈ p.2, c ∈ st.active_connections

end ConnMgr

/-! ## Statement-level definitions

Observation helpers and concrete sample inputs used by the theorems
below. -/

/-- The keys of a JSON object (empty for non-objects). -/
def JVal.objKeys : JVal → List String
  | .obj fields => fields.map (fun f => f.1)
  | _ => []

namespace JsonlParser

/-- The stats bookkeeping invariant: every processed line lands in
exactly one outcome counter. -/
def statsBalanced (s : Stats) : Prop :=
  s.lines_processed = s.messages_parsed + s.parse_errors + s.validation_errors

/-- Messages ordered by `timestamp` ascending (the order the spec
asserts; Python compares aware datetimes by their UTC instant). -/
def messagesSortedByTimestamp : List ParsedMessage → Prop
  | [] => True
  | [_] => True
  | a :: b :: rest =>
    a.timestamp.instantMicros ≤ b.timestamp.instantMicros
      ∧ messagesSortedByTimestamp (b :: rest)

/-- The successfully parsed messages of a line list, in file order (what
the file loop accumulates before rewriting `conversation_id`). -/
def successfulMessages (freshConvId : Nat) (lines : List SrcLine) : List ParsedMessage :=
  lines.filterMap (fun l =>
    match l with
    | .blank => none
    | .malformed => none
    | .jsonLine j => (extractMessageData freshConvId j).toOption)

/-- The `_extract_tool_usage` block loop again, but returning the final
loop state (`tools`, `tool_calls`) instead of only `tools`; used to state
and prove properties of the loop by splitting the block list. -/
def goPartial : List JVal → List ToolUsage → List (JVal × Nat) →
    Option (List ToolUsage × List (JVal × Nat))
  | [], tools, calls => some (tools, calls)
  | block :: rest, tools, calls =>
    match toolStep block tools calls with
    | none => none
    | some (tools2, calls2) => goPartial rest tools2 calls2

/-- A content block the loop registers as a tool use: a dict of type
`tool_use` whose `id` and `name` are both present and truthy. -/
def isValidToolUse (b : JVal) : Bool :=
  match b with
  | .obj _ =>
    match b.lookup "type" with
    | some (.str "tool_use") => truthyOpt (b.lookup "id") && truthyOpt (b.lookup "name")
    | _ => false
  | _ => false

/-- A content block that is a `tool_result` whose `tool_use_id` equals
(Python `==`) the tool-use id `i`. -/
def isMatchingResult (i : JVal) (b : JVal) : Bool :=
  match b with
  | .obj _ =>
    match b.lookup "type" with
    | some (.str "tool_result") =>
      match b.lookup "tool_use_id" with
      | some k => JVal.beq k i
      | none => false
    | _ => false
  | _ => false

/-- The update a matching `tool_result` block applies to its `ToolUsage`:
`tool_output = content`, `status = error if is_error else success`. -/
def applyMatch (tu : ToolUsage) (r : JVal) : ToolUsage :=
  { tu with
    tool_output := (asToolOutput (r.lookup "content")).getD none,
    status := some (if ((r.lookup "is_error").getD (.bool false)).truthy then "error" else "success") }

/-- Number of blocks the loop registers as tool uses. -/
def countValidToolUses (blocks : List JVal) : Nat := (blocks.filter isValidToolUse).length

/-- A transcript line value with the standard field layout (optional
`parentUuid`), used to quantify over message-level inputs. -/
def mkRawLine (uuid sessionId timestamp typ : JVal) (parent : Option JVal)
    (role content : JVal) : JVal :=
  .obj ([("uuid", uuid), ("sessionId", sessionId), ("timestamp", timestamp), ("type", typ)]
    ++ (match parent with | some p => [("parentUuid", p)] | none => [])
    ++ [("message", .obj [("role", role), ("content", content)])])

end JsonlParser

/-! Sample inputs for the concrete theorems. -/

/-- A well-formed transcript line with `sessionId` `"S"` (the spec's
happy-path scenario). -/
def sampleLineS : JVal := .obj
  [("uuid", .str "m1"), ("sessionId", .str "S"),
   ("timestamp", .str "2024-01-15T10:30:00Z"), ("type", .str "message"),
   ("message", .obj [("role", .str "user"), ("content", .str "hi")])]

/-- A transcript line stamped 10:31. -/
def lineAt1031 : JVal := .obj
  [("uuid", .str "m1"), ("sessionId", .str "S"),
   ("timestamp", .str "2024-01-15T10:31:00Z"), ("type", .str "message"),
   ("message", .obj [("role", .str "user"), ("content", .str "first")])]

/-- A transcript line stamped 10:30 (earlier than `lineAt1031`). -/
def lineAt1030 : JVal := .obj
  [("uuid", .str "m2"), ("sessionId", .str "S"),
   ("timestamp", .str "2024-01-15T10:30:00Z"), ("type", .str "message"),
   ("message", .obj [("role", .str "assistant"), ("content", .str "second")])]

/-- A valid `tool_use` block with id `"t1"` and name `"Read"`. -/
def useBlockT1 : JVal := .obj
  [("type", .str "tool_use"), ("id", .str "t1"), ("name", .str "Read"),
   ("input", .obj [("file_path", .str "/f.py")])]

/-- A `tool_result` block for `"t1"` whose content is a JSON object. -/
def resultBlockT1 : JVal := .obj
  [("type", .str "tool_result"), ("tool_use_id", .str "t1"),
   ("content", .obj [("out", .str "OK")])]

/-- A message for the duplicate-write experiment. -/
def sampleMsg : ParsedMessage :=
  { conversation_id := 0, message_id := "m1",
    timestamp := ⟨2024, 1, 15, 10, 30, 0, 0, some 0⟩, role := "user", content := "hi" }

/-- A parsed conversation with one message, written twice in the
duplicate-write experiment. -/
def sampleConv : ConversationData :=
  { project_id := 5, session_id := "S", title := some "Conversation from c.jsonl",
    message_count := 1, messages := [sampleMsg] }

/-- Sortedness by timestamp is decidable (used to evaluate it on
concrete parser outputs). -/
def decMessagesSorted : (msgs : List ParsedMessage) →
    Decidable (JsonlParser.messagesSortedByTimestamp msgs)
  | [] => isTrue trivial
  | [_] => isTrue trivial
  | a :: b :: rest =>
    match decMessagesSorted (b :: rest) with
    | isTrue h =>
      match inferInstanceAs (Decidable
          (a.timestamp.instantMicros ≤ b.timestamp.instantMicros)) with
      | isTrue hle => isTrue ⟨hle, h⟩
      | isFalse hle => isFalse (fun hc => hle hc.1)
    | isFalse h => isFalse (fun hc => h hc.2)

instance (msgs : List ParsedMessage) :
    Decidable (JsonlParser.messagesSortedByTimestamp msgs) :=
  decMessagesSorted msgs

/-- The conversation value `parse_conversation_file` yields for a
one-line file `"p.jsonl"` holding `sampleLineS`, with hash modelled as
constantly 0 and fresh ids 0 (project) and 1 (conversation). -/
def sampleParsedConv : ConversationData :=
  { id := some 1, project_id := 0, session_id := "file_0",
    title := some "Conversation from p.jsonl", message_count := 1,
    messages := [{ id := none, conversation_id := 1, message_id := "m1", parent_id := none,
                   timestamp := ⟨2024, 1, 15, 10, 30, 0, 0, some 0⟩, role := "user",
                   content := "hi", tool_usage := none }] }

/-! ## Theorems -/

mutual

theorem JVal.beq_iff : ∀ (a b : JVal), JVal.beq a b = true ↔ a = b
  | .null, .null => by simp [JVal.beq]
  | .null, .bool _ => by simp [JVal.beq]
  | .bool a, .bool b => by simp [JVal.beq]
  | .num a, .num b => by simp [JVal.beq]
  | .str a, .str b => by simp [JVal.beq]
  | .arr xs, .arr ys => by simp [JVal.beq, JVal.beqList_iff xs ys]
  | .obj xs, .obj ys => by simp [JVal.beq, JVal.beqFields_iff xs ys]
  | .null, .num _ => by simp [JVal.beq]
  | .null, .str _ => by simp [JVal.beq]
  | .null, .arr _ => by simp [JVal.beq]
  | .null, .obj _ => by simp [JVal.beq]
  | .bool _, .null => by simp [JVal.beq]
  | .bool _, .num _ => by simp [JVal.beq]
  | .bool _, .str _ => by simp [JVal.beq]
  | .bool _, .arr _ => by simp [JVal.beq]
  | .bool _, .obj _ => by simp [JVal.beq]
  | .num _, .null => by simp [JVal.beq]
  | .num _, .bool _ => by simp [JVal.beq]
  | .num _, .str _ => by simp [JVal.beq]
  | .num _, .arr _ => by simp [JVal.beq]
  | .num _, .obj _ => by simp [JVal.beq]
  | .str _, .null => by simp [JVal.beq]
  | .str _, .bool _ => by simp [JVal.beq]
  | .str _, .num _ => by simp [JVal.beq]
  | .str _, .arr _ => by simp [JVal.beq]
  | .str _, .obj _ => by simp [JVal.beq]
  | .arr _, .null => by simp [JVal.beq]
  | .arr _, .bool _ => by simp [JVal.beq]
  | .arr _, .num _ => by simp [JVal.beq]
  | .arr _, .str _ => by simp [JVal.beq]
  | .arr _, .obj _ => by simp [JVal.beq]
  | .obj _, .null => by simp [JVal.beq]
  | .obj _, .bool _ => by simp [JVal.beq]
  | .obj _, .num _ => by simp [JVal.beq]
  | .obj _, .str _ => by simp [JVal.beq]
  | .obj _, .arr _ => by simp [JVal.beq]

theorem JVal.beqList_iff : ∀ (xs ys : List JVal), JVal.beqList xs ys = true ↔ xs = ys
  | [], [] => by simp [JVal.beqList]
  | [], _ :: _ => by simp [JVal.beqList]
  | _ :: _, [] => by simp [JVal.beqList]
  | x :: xs, y :: ys => by
    simp [JVal.beqList, JVal.beq_iff x y, JVal.beqList_iff xs ys]

theorem JVal.beqFields_iff : ∀ (xs ys : List (String × JVal)),
    JVal.beqFields xs ys = true ↔ xs = ys
  | [], [] => by simp [JVal.beqFields]
  | [], _ :: _ => by simp [JVal.beqFields]
  | _ :: _, [] => by simp [JVal.beqFields]
  | (k₁, v₁) :: xs, (k₂, v₂) :: ys => by
    simp [JVal.beqFields, JVal.beq_iff v₁ v₂, JVal.beqFields_iff xs ys, and_assoc]

end

instance : DecidableEq JVal := fun a b =>
  decidable_of_iff (JVal.beq a b = true) (JVal.beq_iff a b)

namespace JsonlParser

/-- One `parse_line` call bumps `lines_processed` and exactly one of the
three outcome counters (whatever the input). -/
theorem parseLine_step_balanced (f : Nat) (s : Stats) (i : Option JVal) :
    (parseLine f s i).1.lines_processed = s.lines_processed + 1 ∧
    (parseLine f s i).1.messages_parsed + (parseLine f s i).1.parse_errors
        + (parseLine f s i).1.validation_errors
      = s.messages_parsed + s.parse_errors + s.validation_errors + 1 := by
  cases i with
  | none => simp [parseLine]; omega
  | some raw =>
    cases h : extractMessageData f raw with
    | error e => simp [parseLine, h]; omega
    | ok m => simp [parseLine, h]; omega

end JsonlParser

/-- C9: after construction (or `reset_stats`, which restores the same
counters) and any sequence of `parse_line` calls,
`lines_processed = messages_parsed + parse_errors + validation_errors`:
each call bumps `lines_processed` and exactly one outcome counter
(`parse_errors` for malformed JSON, `validation_errors` for any
`ProcessingError` from `_extract_message_data`, else `messages_parsed`). -/
theorem parseLine_stats_partition (inputs : List (Option JVal)) (f : Nat) :
    JsonlParser.statsBalanced
      (inputs.foldl (fun s i => (JsonlParser.parseLine f s i).1) JsonlParser.initStats) := by
  have key : ∀ (l : List (Option JVal)) (s : JsonlParser.Stats), JsonlParser.statsBalanced s →
      JsonlParser.statsBalanced (l.foldl (fun s i => (JsonlParser.parseLine f s i).1) s) := by
    intro l
    induction l with
    | nil => intro s hs; exact hs
    | cons x xs ih =>
      intro s hs
      obtain ⟨h1, h2⟩ := JsonlParser.parseLine_step_balanced f s x
      refine ih _ ?_
      show JsonlParser.statsBalanced (JsonlParser.parseLine f s x).1
      unfold JsonlParser.statsBalanced at hs ⊢
      omega
  exact key inputs _ (by rfl)

/-- C2: `parse_conversation_file` does NOT take `session_id` from the
file contents.  On a file whose (first and only) line carries
`sessionId = "S"`, the returned conversation's `session_id` is the
path-derived placeholder `"file_" + str(hash(file_path))` — for every
possible value of Python's process-seeded `hash` — and no such string can
equal `"S"`.  (The source marks the placeholder
`# Temporary - should be from actual data`.) -/
theorem parseConversationFile_session_id_placeholder (pyHash : String → Int)
    (pid cid : Nat) (st : JsonlParser.Stats) :
    ((JsonlParser.parseConversationFile pyHash pid cid st "P/S/c.jsonl"
        [JsonlParser.SrcLine.jsonLine sampleLineS]).2.toOption.map (fun c => c.session_id))
      = some ("file_" ++ toString (pyHash "P/S/c.jsonl"))
    ∧ ("file_" ++ toString (pyHash "P/S/c.jsonl")) ≠ "S"
    ∧ sampleLineS.lookup "sessionId" = some (.str "S") := by
  refine ⟨rfl, ?_, rfl⟩
  intro h
  have hl := congrArg String.length h
  rw [String.length_append] at hl
  have h5 : "file_".length = 5 := rfl
  have h1 : "S".length = 1 := rfl
  omega

/-- C7 (counterexample): the `connection_established` envelope data sent
by `connect` carries exactly the keys `client_id`, `subscriptions` and
`server_time` — `user_id` is not among them (the claim asserts it is). -/
theorem connect_envelope_missing_user_id :
    (((ConnMgr.connect ConnMgr.initCM "c1" "T0" none).2.2.lookup "data").map JVal.objKeys)
      = some ["client_id", "subscriptions", "server_time"]
    ∧ "user_id" ∉ ["client_id", "subscriptions", "server_time"] :=
  ⟨rfl, by decide⟩

/-- C7 (amended): for every registry state and accept call, the
`connection_established` envelope has `type = "connection_established"`,
its data carries exactly `client_id`, `subscriptions` and `server_time`
(no `user_id`: `connect` receives no user information), and its timestamp
is the send-time clock reading. -/
theorem connect_envelope_fields (st : ConnMgr.CMState) (freshId now : String)
    (subsReq : Option (List String)) :
    ((ConnMgr.connect st freshId now subsReq).2.2.lookup "type")
        = some (.str "connection_established")
    ∧ (((ConnMgr.connect st freshId now subsReq).2.2.lookup "data").map JVal.objKeys)
        = some ["client_id", "subscriptions", "server_time"]
    ∧ ((ConnMgr.connect st freshId now subsReq).2.2.lookup "timestamp")
        = some (.str now) :=
  ⟨rfl, rfl, rfl⟩

/-- C1: writing the same one-message conversation twice adopts the same
conversation id both times (read-then-write works) and bumps
`conversations_updated`, but the second call appends the message payload
to the `messages` table AGAIN — 2 rows after the second call instead of
1 — because `_batch_upsert_messages` issues a plain insert (and even
omits `message_id` from the payload) instead of the documented upsert on
`(conversation_id, message_id)`. -/
theorem writeConversation_duplicates_messages :
    (DbWriter.writeConversation DbWriter.initWriterStats DbWriter.emptyDb sampleConv).2.2
      = ((DbWriter.writeConversation
          (DbWriter.writeConversation DbWriter.initWriterStats DbWriter.emptyDb sampleConv).1
          (DbWriter.writeConversation DbWriter.initWriterStats DbWriter.emptyDb sampleConv).2.1
          sampleConv).2.2)
    ∧ (DbWriter.writeConversation DbWriter.initWriterStats DbWriter.emptyDb
        sampleConv).2.1.messages.length = 1
    ∧ (DbWriter.writeConversation
          (DbWriter.writeConversation DbWriter.initWriterStats DbWriter.emptyDb sampleConv).1
          (DbWriter.writeConversation DbWriter.initWriterStats DbWriter.emptyDb sampleConv).2.1
          sampleConv).2.1.messages.length = 2
    ∧ (DbWriter.writeConversation
          (DbWriter.writeConversation DbWriter.initWriterStats DbWriter.emptyDb sampleConv).1
          (DbWriter.writeConversation DbWriter.initWriterStats DbWriter.emptyDb sampleConv).2.1
          sampleConv).1.conversations_updated = 1 :=
  ⟨rfl, rfl, rfl, rfl⟩

/-- C3 (counterexample): with one connected (hence addressed) session
`"c1"` and an unencodable payload, `broadcast` sends nothing and returns
the EMPTY failed list — `"c1"` is not in it, contradicting the claim
that every addressed session id is returned as failed. -/
theorem broadcast_serialization_counterexample :
    (ConnMgr.connect ConnMgr.initCM "c1" "T0" none).1.active_connections = ["c1"]
    ∧ ConnMgr.broadcast (ConnMgr.connect ConnMgr.initCM "c1" "T0" none).1 (fun _ => false)
        ⟨some (.json (.str "conversation_update")), some .unencodable⟩ none
      = ⟨[], []⟩
    ∧ "c1" ∉ (ConnMgr.broadcast (ConnMgr.connect ConnMgr.initCM "c1" "T0" none).1 (fun _ => false)
        ⟨some (.json (.str "conversation_update")), some .unencodable⟩ none).failed := by
  refine ⟨rfl, rfl, ?_⟩
  exact (by simp : "c1" ∉ ([] : List String))

/-- C3 (amended): when the envelope cannot be JSON-serialized, the
broadcast is aborted before any send: no frame goes to any session and
the returned failed list is empty. -/
theorem broadcast_serialization_failure_aborts (st : ConnMgr.CMState)
    (sendFails : String → Bool) (msg : ConnMgr.BroadcastMessage) (filter : Option String)
    (h : ((msg.mtype.getD (.json (.str "unknown"))).serializable
          && (msg.mdata.getD (.json (.obj []))).serializable) = false) :
    ConnMgr.broadcast st sendFails msg filter = ⟨[], []⟩ := by
  simp [ConnMgr.broadcast, h]

/-- Witness for the amended C3 at a concrete unencodable message. -/
theorem broadcast_serialization_failure_aborts_witness :
    ConnMgr.broadcast ConnMgr.initCM (fun _ => false)
      ⟨none, some ConnMgr.PyVal.unencodable⟩ none = ⟨[], []⟩ :=
  broadcast_serialization_failure_aborts ConnMgr.initCM (fun _ => false)
    ⟨none, some ConnMgr.PyVal.unencodable⟩ none (by rfl)

namespace PerfMon

/-- `record_metrics` leaves the configuration untouched. -/
theorem recordMetrics_config (st : PMState) (m : Metrics) :
    (recordMetrics st m).sla_threshold_ms = st.sla_threshold_ms ∧
    (recordMetrics st m).max_samples = st.max_samples := ⟨rfl, rfl⟩

/-- A recording sequence leaves the configuration untouched. -/
theorem fold_config (samples : List Metrics) (st : PMState) :
    (samples.foldl recordMetrics st).sla_threshold_ms = st.sla_threshold_ms ∧
    (samples.foldl recordMetrics st).max_samples = st.max_samples := by
  induction samples generalizing st with
  | nil => exact ⟨rfl, rfl⟩
  | cons x rest ih => simpa using ih (recordMetrics st x)

/-- `total_samples` counts every recorded sample. -/
theorem fold_total (samples : List Metrics) (st : PMState) :
    (samples.foldl recordMetrics st).total_samples = st.total_samples + samples.length := by
  induction samples generalizing st with
  | nil => rfl
  | cons x rest ih =>
    rw [List.foldl_cons, ih (recordMetrics st x)]
    have h1 : (recordMetrics st x).total_samples = st.total_samples + 1 := rfl
    rw [h1, List.length_cons]
    omega

/-- `sla_violations` counts exactly the recorded samples whose detection
latency strictly exceeds the threshold (the counter is cumulative, not
windowed by the ring buffer). -/
theorem fold_violations (samples : List Metrics) (st : PMState) :
    (samples.foldl recordMetrics st).sla_violations
      = st.sla_violations
        + (samples.filter (fun m => decide (st.sla_threshold_ms < m.detection_latency_ms))).length := by
  induction samples generalizing st with
  | nil => rfl
  | cons x rest ih =>
    have h := ih (recordMetrics st x)
    have hth : (recordMetrics st x).sla_threshold_ms = st.sla_threshold_ms := rfl
    rw [List.foldl_cons, h]
    simp only [hth]
    have hv : (recordMetrics st x).sla_violations
        = st.sla_violations + (if st.sla_threshold_ms < x.detection_latency_ms then 1 else 0) := rfl
    rw [hv, List.filter_cons]
    by_cases hx : st.sla_threshold_ms < x.detection_latency_ms
    · simp [hx]
      omega
    · simp [hx]

/-- Appending to a bounded deque caps its length at the bound. -/
theorem dequeAppend_length (n : Nat) (xs : List ℚ) (x : ℚ) :
    (dequeAppend n xs x).length = min (xs.length + 1) n := by
  simp [dequeAppend]
  omega

/-- Buffer length after a nonempty recording sequence. -/
theorem fold_buffer_length (samples : List Metrics) (st : PMState) (hs : samples ≠ []) :
    (samples.foldl recordMetrics st).detection_latencies.length
      = min (st.detection_latencies.length + samples.length) st.max_samples := by
  induction samples generalizing st with
  | nil => exact absurd rfl hs
  | cons x rest ih =>
    rcases eq_or_ne rest [] with hrest | hrest
    · subst hrest
      simp [recordMetrics, dequeAppend_length]
    · have h := ih (recordMetrics st x) hrest
      rw [List.foldl_cons, h]
      have h1 : (recordMetrics st x).detection_latencies.length
          = min (st.detection_latencies.length + 1) st.max_samples := dequeAppend_length _ _ _
      have h2 : (recordMetrics st x).max_samples = st.max_samples := rfl
      rw [h1, h2, List.length_cons]
      omega

/-- With a nonempty buffer, the summary status is determined by the
compliance-rate bands. -/
theorem getSummaryStatus_bands (st : PMState) (h : st.detection_latencies.isEmpty = false) :
    (getSummaryStatus st = "ok" ↔ 99 / 100 ≤ slaComplianceRate st)
    ∧ (getSummaryStatus st = "degraded" ↔
        95 / 100 ≤ slaComplianceRate st ∧ slaComplianceRate st < 99 / 100)
    ∧ (getSummaryStatus st = "unavailable" ↔ slaComplianceRate st < 95 / 100) := by
  unfold getSummaryStatus
  rw [h]
  simp only [Bool.false_eq_true, if_false, ge_iff_le]
  split_ifs with h1 h2
  · refine ⟨by simp [h1], ?_, ?_⟩
    · constructor
      · intro hc; exact absurd hc (by decide)
      · rintro ⟨-, hlt⟩; exact absurd h1 (not_le.mpr hlt)
    · constructor
      · intro hc; exact absurd hc (by decide)
      · intro hlt; linarith
  · refine ⟨?_, by simp [h2, not_le.mp h1], ?_⟩
    · constructor
      · intro hc; exact absurd hc (by decide)
      · intro hle; exact absurd hle (not_le.mpr (not_le.mp h1))
    · constructor
      · intro hc; exact absurd hc (by decide)
      · intro hlt; exact absurd h2 (not_le.mpr hlt)
  · refine ⟨?_, ?_, by simp [not_le.mp h1, not_le.mp h2]⟩
    · constructor
      · intro hc; exact absurd hc (by decide)
      · intro hle; exact absurd hle h1
    · constructor
      · intro hc; exact absurd hc (by decide)
      · rintro ⟨hle, -⟩; exact absurd hle h2

end PerfMon

/-- C8: over any recorded sample sequence (with a positive ring-buffer
bound), a sample counts as an SLA violation iff its detection latency
strictly exceeds the threshold; `get_summary` reports `no_data` exactly
when nothing was recorded, and otherwise its status is `ok` iff the
compliance rate `1 - violations/total` is at least 0.99, `degraded` iff
the rate is in [0.95, 0.99), and `unavailable` otherwise. -/
theorem performance_summary_status (maxSamples : Nat) (threshold : ℚ)
    (samples : List PerfMon.Metrics) (hmax : 0 < maxSamples) :
    (samples.foldl PerfMon.recordMetrics (PerfMon.initPM maxSamples threshold)).sla_violations
        = (samples.filter (fun m => decide (threshold < m.detection_latency_ms))).length
    ∧ PerfMon.slaComplianceRate
          (samples.foldl PerfMon.recordMetrics (PerfMon.initPM maxSamples threshold))
        = 1 - (((samples.filter (fun m => decide (threshold < m.detection_latency_ms))).length : ℚ)
            / (max 1 samples.length : ℚ))
    ∧ (samples = [] →
        PerfMon.getSummaryStatus
          (samples.foldl PerfMon.recordMetrics (PerfMon.initPM maxSamples threshold)) = "no_data")
    ∧ (samples ≠ [] →
        (PerfMon.getSummaryStatus
            (samples.foldl PerfMon.recordMetrics (PerfMon.initPM maxSamples threshold)) = "ok"
          ↔ 99 / 100 ≤ PerfMon.slaComplianceRate
              (samples.foldl PerfMon.recordMetrics (PerfMon.initPM maxSamples threshold)))
        ∧ (PerfMon.getSummaryStatus
            (samples.foldl PerfMon.recordMetrics (PerfMon.initPM maxSamples threshold)) = "degraded"
          ↔ 95 / 100 ≤ PerfMon.slaComplianceRate
              (samples.foldl PerfMon.recordMetrics (PerfMon.initPM maxSamples threshold))
            ∧ PerfMon.slaComplianceRate
              (samples.foldl PerfMon.recordMetrics (PerfMon.initPM maxSamples threshold)) < 99 / 100)
        ∧ (PerfMon.getSummaryStatus
            (samples.foldl PerfMon.recordMetrics (PerfMon.initPM maxSamples threshold)) = "unavailable"
          ↔ PerfMon.slaComplianceRate
              (samples.foldl PerfMon.recordMetrics (PerfMon.initPM maxSamples threshold)) < 95 / 100)) := by
  have hviol := PerfMon.fold_violations samples (PerfMon.initPM maxSamples threshold)
  have htot := PerfMon.fold_total samples (PerfMon.initPM maxSamples threshold)
  have hv : (samples.foldl PerfMon.recordMetrics (PerfMon.initPM maxSamples threshold)).sla_violations
      = (samples.filter (fun m => decide (threshold < m.detection_latency_ms))).length := by
    simpa [PerfMon.initPM] using hviol
  refine ⟨hv, ?_, ?_, ?_⟩
  · unfold PerfMon.slaComplianceRate
    rw [hv, htot]
    simp [PerfMon.initPM]
  · intro hnil
    subst hnil
    rfl
  · intro hne
    have hlen := PerfMon.fold_buffer_length samples (PerfMon.initPM maxSamples threshold) hne
    have hpos : 0 < (samples.foldl PerfMon.recordMetrics
        (PerfMon.initPM maxSamples threshold)).detection_latencies.length := by
      rw [hlen]
      have : 0 < samples.length := List.length_pos.mpr hne
      simp [PerfMon.initPM]
      omega
    have hempty : (samples.foldl PerfMon.recordMetrics
        (PerfMon.initPM maxSamples threshold)).detection_latencies.isEmpty = false := by
      cases hdl : (samples.foldl PerfMon.recordMetrics
          (PerfMon.initPM maxSamples threshold)).detection_latencies with
      | nil => rw [hdl] at hpos; simp at hpos
      | cons a l => rfl
    exact PerfMon.getSummaryStatus_bands _ hempty

/-- Witness for C8: one 150 ms sample against the default 100 ms
threshold yields compliance 0 and status `unavailable`. -/
theorem performance_summary_status_witness :
    PerfMon.getSummaryStatus
      ([({ detection_latency_ms := 150, processing_latency_ms := 1,
           throughput_msgs_per_sec := 1 } : PerfMon.Metrics)].foldl
        PerfMon.recordMetrics (PerfMon.initPM 1000 100)) = "unavailable" := by
  have h := performance_summary_status 1000 100
    [{ detection_latency_ms := 150, processing_latency_ms := 1, throughput_msgs_per_sec := 1 }]
    (by decide)
  exact (h.2.2.2 (by decide)).2.2.mpr (by rw [h.2.1]; norm_num)

namespace ConnMgr

/-- Under the registry invariant, every subscriber of any key is an
active connection. -/
theorem subsLookup_subset {st : CMState} (hinv : IndexInvariant st) {k c : String}
    (hc : c ∈ subsLookup st k) : c ∈ st.active_connections := by
  unfold subsLookup at hc
  cases hf : st.subscriptions.find? (fun p => p.1 = k) with
  | none => rw [hf] at hc; simp at hc
  | some p =>
    rw [hf] at hc
    simp at hc
    exact hinv p (List.mem_of_find?_eq_some hf) c hc

end ConnMgr

/-- C5: broadcast routing over any registry state satisfying the
maintained index invariant, for a serializable envelope.  A send is
attempted for a client (it ends up in the delivered set or the failed
list) exactly as the claim states: all connections when the filter is
absent or the `"all_conversations"` firehose; otherwise the union
`index[filter] ∪ index["all_conversations"]` (an untracked or empty key
contributes nothing, and with no firehose subscribers either the
broadcast is a no-op returning the empty failed list). -/
theorem broadcast_routing (st : ConnMgr.CMState) (sendFails : String → Bool)
    (msg : ConnMgr.BroadcastMessage)
    (hinv : ConnMgr.IndexInvariant st)
    (hser : ((msg.mtype.getD (.json (.str "unknown"))).serializable
          && (msg.mdata.getD (.json (.obj []))).serializable) = true) :
    (∀ c, (c ∈ (ConnMgr.broadcast st sendFails msg none).sent
          ∨ c ∈ (ConnMgr.broadcast st sendFails msg none).failed)
        ↔ c ∈ st.active_connections)
    ∧ (∀ c, (c ∈ (ConnMgr.broadcast st sendFails msg (some "all_conversations")).sent
          ∨ c ∈ (ConnMgr.broadcast st sendFails msg (some "all_conversations")).failed)
        ↔ c ∈ st.active_connections)
    ∧ (∀ f, f ≠ "all_conversations" →
        ∀ c, (c ∈ (ConnMgr.broadcast st sendFails msg (some f)).sent
          ∨ c ∈ (ConnMgr.broadcast st sendFails msg (some f)).failed)
        ↔ (c ∈ ConnMgr.subsLookup st f ∨ c ∈ ConnMgr.subsLookup st "all_conversations"))
    ∧ (∀ f, f ≠ "all_conversations" → ConnMgr.subsLookup st f = [] →
        ConnMgr.subsLookup st "all_conversations" = [] →
        ConnMgr.broadcast st sendFails msg (some f) = ⟨[], []⟩) := by
  have hcond : (!((msg.mtype.getD (.json (.str "unknown"))).serializable
      && (msg.mdata.getD (.json (.obj []))).serializable)) = false := by
    rw [hser]; rfl
  refine ⟨?_, ?_, ?_, ?_⟩
  · intro c
    simp only [ConnMgr.broadcast, hcond, Bool.false_eq_true, if_false, ConnMgr.sendEach,
      List.mem_filter]
    by_cases hc : sendFails c <;> simp [hc]
  · intro c
    simp only [ConnMgr.broadcast, hcond, Bool.false_eq_true, if_false, ConnMgr.sendEach,
      ConnMgr.targetClients, if_pos rfl, List.mem_filter]
    by_cases hc : sendFails c
    · simp [hc]
    · simp [hc]
  · intro f hf c
    simp only [ConnMgr.broadcast, hcond, Bool.false_eq_true, if_false, ConnMgr.sendEach,
      ConnMgr.targetClients, if_neg hf, List.mem_filter]
    constructor
    · rintro (⟨⟨hmem, -⟩, -⟩ | ⟨⟨hmem, -⟩, -⟩) <;>
        simpa [List.mem_dedup, List.mem_append] using hmem
    · intro hmem
      have htc : c ∈ (ConnMgr.subsLookup st f ++ ConnMgr.subsLookup st "all_conversations").dedup := by
        simp [List.mem_dedup, List.mem_append]
        exact hmem
      have hact : c ∈ st.active_connections := by
        rcases hmem with h1 | h1
        · exact ConnMgr.subsLookup_subset hinv h1
        · exact ConnMgr.subsLookup_subset hinv h1
      have hcontains : st.active_connections.contains c = true := by
        simpa using hact
      by_cases hc : sendFails c
      · right; exact ⟨⟨htc, hcontains⟩, by simp [hc]⟩
      · left; exact ⟨⟨htc, hcontains⟩, by simp [hc]⟩
  · intro f hf h1 h2
    simp [ConnMgr.broadcast, hcond, ConnMgr.sendEach, ConnMgr.targetClients, if_neg hf, h1, h2]

/-- Witness for C5: two connected clients, `"c1"` on the default
subscriptions and `"c2"` on `file_events` only; a broadcast filtered to
the untracked key `"conversation:9"` addresses `"c1"` through the
firehose. -/
theorem broadcast_routing_witness :
    ("c1" ∈ (ConnMgr.broadcast
        (ConnMgr.connect (ConnMgr.connect ConnMgr.initCM "c1" "T0" none).1 "c2" "T1"
          (some ["file_events"])).1
        (fun _ => false) ⟨some (.json (.str "conversation_update")), none⟩
        (some "conversation:9")).sent
      ∨ "c1" ∈ (ConnMgr.broadcast
        (ConnMgr.connect (ConnMgr.connect ConnMgr.initCM "c1" "T0" none).1 "c2" "T1"
          (some ["file_events"])).1
        (fun _ => false) ⟨some (.json (.str "conversation_update")), none⟩
        (some "conversation:9")).failed)
    ↔ ("c1" ∈ ConnMgr.subsLookup
        (ConnMgr.connect (ConnMgr.connect ConnMgr.initCM "c1" "T0" none).1 "c2" "T1"
          (some ["file_events"])).1 "conversation:9"
      ∨ "c1" ∈ ConnMgr.subsLookup
        (ConnMgr.connect (ConnMgr.connect ConnMgr.initCM "c1" "T0" none).1 "c2" "T1"
          (some ["file_events"])).1 "all_conversations") := by
  have h := broadcast_routing
    (ConnMgr.connect (ConnMgr.connect ConnMgr.initCM "c1" "T0" none).1 "c2" "T1"
      (some ["file_events"])).1
    (fun _ => false) ⟨some (.json (.str "conversation_update")), none⟩
    (by unfold ConnMgr.IndexInvariant; decide) (by rfl)
  exact h.2.2.1 "conversation:9" (by decide) "c1"

namespace JsonlParser

/-- The file loop accumulates exactly the successfully parsed messages,
in file order, after whatever was already accumulated. -/
theorem parseFileGo_msgs (pyHash : String → Int) (path : String) (cid : Nat) :
    ∀ (lines : List SrcLine) (st : Stats) (acc : List ParsedMessage) (sid : Option String),
    (parseFileGo pyHash path cid lines st acc sid).2.1 = acc ++ successfulMessages cid lines := by
  intro lines
  induction lines with
  | nil => intro st acc sid; simp [parseFileGo, successfulMessages]
  | cons l rest ih =>
    intro st acc sid
    cases l with
    | blank =>
      simp only [parseFileGo, successfulMessages, List.filterMap_cons]
      exact ih st acc sid
    | malformed =>
      simp only [parseFileGo, parseLine, successfulMessages, List.filterMap_cons]
      exact ih _ acc sid
    | jsonLine j =>
      cases hr : extractMessageData cid j with
      | error e =>
        have ht : (extractMessageData cid j).toOption = none := by rw [hr]; rfl
        simp only [parseFileGo, parseLine, hr, successfulMessages, List.filterMap_cons, ht]
        exact ih _ acc sid
      | ok m =>
        have ht : (extractMessageData cid j).toOption = some m := by rw [hr]; rfl
        simp only [parseFileGo, parseLine, hr, successfulMessages, List.filterMap_cons, ht]
        rw [ih _ (acc ++ [m]) _]
        simp only [successfulMessages, List.append_assoc]
        rfl

end JsonlParser

/-- C4 (amended): every successful `parse_conversation_file` result has
`message_count = len(messages)`, and `messages` is exactly the
successfully parsed lines in input (file) order with `conversation_id`
rewritten — the parser does NOT re-sort by timestamp, so the output is
timestamp-ordered only when the file already is. -/
theorem parseConversationFile_file_order (pyHash : String → Int) (pid cid : Nat)
    (st : JsonlParser.Stats) (path : String) (lines : List JsonlParser.SrcLine)
    (c : ConversationData)
    (h : (JsonlParser.parseConversationFile pyHash pid cid st path lines).2 = .ok c) :
    c.message_count = c.messages.length
    ∧ c.messages = (JsonlParser.successfulMessages cid lines).map
        (fun m => { m with conversation_id := cid }) := by
  have hm := JsonlParser.parseFileGo_msgs pyHash path cid lines st [] none
  unfold JsonlParser.parseConversationFile at h
  rcases hgo : JsonlParser.parseFileGo pyHash path cid lines st [] none with ⟨st', msgs, sid⟩
  rw [hgo] at h hm
  simp only at hm
  by_cases he : msgs.isEmpty
  · simp [he] at h
  · simp only [he, Bool.false_eq_true, if_false] at h
    rw [Except.ok.injEq] at h
    subst h
    constructor
    · simp
    · simp only
      rw [hm]
      simp

/-- C4 (counterexample): a two-line file whose second line carries the
earlier timestamp (10:31 then 10:30) parses successfully with
`message_count = len(messages) = 2`, but the messages are NOT sorted by
timestamp ascending — they stay in file order. -/
theorem parseConversationFile_unsorted_counterexample :
    ((JsonlParser.parseConversationFile (fun _ => 0) 0 1 JsonlParser.initStats "p.jsonl"
        [JsonlParser.SrcLine.jsonLine lineAt1031,
         JsonlParser.SrcLine.jsonLine lineAt1030]).2.toOption.map
      (fun c => (c.message_count, c.messages.length,
        decide (JsonlParser.messagesSortedByTimestamp c.messages))))
      = some (2, 2, false) := by
  rfl

/-- Witness for the amended C4 on a concrete one-line file. -/
theorem parseConversationFile_file_order_witness :
    sampleParsedConv.message_count = sampleParsedConv.messages.length
    ∧ sampleParsedConv.messages
      = (JsonlParser.successfulMessages 1 [JsonlParser.SrcLine.jsonLine sampleLineS]).map
          (fun m => { m with conversation_id := 1 }) :=
  parseConversationFile_file_order (fun _ => 0) 0 1 JsonlParser.initStats "p.jsonl"
    [JsonlParser.SrcLine.jsonLine sampleLineS] sampleParsedConv (by rfl)

namespace JsonlParser

/-- Splitting the block loop: running it over `xs ++ ys` is running it
over `xs` (keeping the loop state) and continuing over `ys`. -/
theorem go_append (xs ys : List JVal) : ∀ (tools : List ToolUsage) (calls : List (JVal × Nat)),
    extractToolUsageGo (xs ++ ys) tools calls
      = match goPartial xs tools calls with
        | none => none
        | some (t, c) => extractToolUsageGo ys t c := by
  induction xs with
  | nil => intro tools calls; rfl
  | cons x xs ih =>
    intro tools calls
    cases hs : toolStep x tools calls with
    | none => simp only [List.cons_append, extractToolUsageGo, goPartial, hs]
    | some p =>
      rcases p with ⟨t, c⟩
      simp only [List.cons_append, extractToolUsageGo, goPartial, hs]
      exact ih t c

/-- A `tool_use` block with no `id` or no `name` field leaves the loop
state untouched (no `ToolUsage`, no recorded id, no error). -/
theorem toolStep_skip_defective (bad : JVal)
    (htype : bad.lookup "type" = some (.str "tool_use"))
    (hmiss : bad.lookup "id" = none ∨ bad.lookup "name" = none)
    (tools : List ToolUsage) (calls : List (JVal × Nat)) :
    toolStep bad tools calls = some (tools, calls) := by
  rcases bad with _ | b | q | s | xs | fs
  · simp [JVal.lookup] at htype
  · simp [JVal.lookup] at htype
  · simp [JVal.lookup] at htype
  · simp [JVal.lookup] at htype
  · simp [JVal.lookup] at htype
  · rcases hmiss with h | h
    · simp [toolStep, htype, h]
    · cases hid : (JVal.obj fs).lookup "id" with
      | none => simp [toolStep, htype, hid]
      | some v => simp [toolStep, htype, hid, h]

/-- `_extract_tool_usage` on a content list with a defective `tool_use`
block equals the extraction with that block removed — in particular a
later `tool_result` referencing the defective block's id finds nothing
recorded and is ignored. -/
theorem extractToolUsage_skips_defective (pre post : List JVal) (bad : JVal)
    (htype : bad.lookup "type" = some (.str "tool_use"))
    (hmiss : bad.lookup "id" = none ∨ bad.lookup "name" = none) :
    extractToolUsage (.arr (pre ++ bad :: post)) = extractToolUsage (.arr (pre ++ post)) := by
  unfold extractToolUsage
  suffices h : ∀ (tools : List ToolUsage) (calls : List (JVal × Nat)),
      extractToolUsageGo (pre ++ bad :: post) tools calls
        = extractToolUsageGo (pre ++ post) tools calls from h [] []
  intro tools calls
  induction pre generalizing tools calls with
  | nil =>
    simp only [List.nil_append, extractToolUsageGo,
      toolStep_skip_defective bad htype hmiss tools calls]
  | cons x xs ih =>
    cases hs : toolStep x tools calls with
    | none => simp only [List.cons_append, extractToolUsageGo, hs]
    | some p =>
      rcases p with ⟨t, c⟩
      simp only [List.cons_append, extractToolUsageGo, hs]
      exact ih t c

/-- `_extract_content` ignores `tool_use` blocks: text extraction is
unchanged when one is removed. -/
theorem extractContent_skips_non_text (pre post : List JVal) (bad : JVal)
    (htype : bad.lookup "type" = some (.str "tool_use")) :
    extractContent (.arr (pre ++ bad :: post)) = extractContent (.arr (pre ++ post)) := by
  unfold extractContent
  rcases bad with _ | b | q | s | xs | fs
  · simp [JVal.lookup] at htype
  · simp [JVal.lookup] at htype
  · simp [JVal.lookup] at htype
  · simp [JVal.lookup] at htype
  · simp [JVal.lookup] at htype
  · simp only [List.filterMap_append, List.filterMap_cons]
    simp [htype]

end JsonlParser

namespace JsonlParser

/-- `_extract_message_data` reads the message content only through
`_extract_content` and `_extract_tool_usage`: two lines differing just in
the content value parse identically whenever those two agree. -/
theorem extractMessageData_content_congr (fresh : Nat) (uuid sid ts typ role : JVal)
    (parent : Option JVal) (c1 c2 : JVal)
    (hcc : extractContent c1 = extractContent c2)
    (htc : extractToolUsage c1 = extractToolUsage c2) :
    extractMessageData fresh (mkRawLine uuid sid ts typ parent role c1)
      = extractMessageData fresh (mkRawLine uuid sid ts typ parent role c2) := by
  cases parent with
  | none =>
    have hp : ∀ (mv : JVal), requiredFields.mapM (pyContains (JVal.obj
        [("uuid", uuid), ("sessionId", sid), ("timestamp", ts), ("type", typ),
         ("message", mv)])) = some [true, true, true, true, true] := fun _ => rfl
    have hmsg : ∀ (mv : JVal), pyIndex (JVal.obj
        [("uuid", uuid), ("sessionId", sid), ("timestamp", ts), ("type", typ),
         ("message", mv)]) "message" = some mv := fun _ => rfl
    have hts2 : ∀ (mv : JVal), pyIndex (JVal.obj
        [("uuid", uuid), ("sessionId", sid), ("timestamp", ts), ("type", typ),
         ("message", mv)]) "timestamp" = some ts := fun _ => rfl
    have huu : ∀ (mv : JVal), pyIndex (JVal.obj
        [("uuid", uuid), ("sessionId", sid), ("timestamp", ts), ("type", typ),
         ("message", mv)]) "uuid" = some uuid := fun _ => rfl
    have hpu : ∀ (mv : JVal), (JVal.obj
        [("uuid", uuid), ("sessionId", sid), ("timestamp", ts), ("type", typ),
         ("message", mv)]).lookup "parentUuid" = none := fun _ => rfl
    have hrole : ∀ (mv : JVal), (JVal.obj [("role", role), ("content", mv)]).lookup "role"
        = some role := fun _ => rfl
    have hcont : ∀ (mv : JVal), (JVal.obj [("role", role), ("content", mv)]).lookup "content"
        = some mv := fun _ => rfl
    unfold extractMessageData mkRawLine
    simp only [List.cons_append, List.nil_append, hp,
      hmsg, hts2, huu, hpu, hrole, hcont, Option.getD, hcc, htc]
  | some p =>
    have hp : ∀ (mv : JVal), requiredFields.mapM (pyContains (JVal.obj
        [("uuid", uuid), ("sessionId", sid), ("timestamp", ts), ("type", typ),
         ("parentUuid", p), ("message", mv)])) = some [true, true, true, true, true] :=
      fun _ => rfl
    have hmsg : ∀ (mv : JVal), pyIndex (JVal.obj
        [("uuid", uuid), ("sessionId", sid), ("timestamp", ts), ("type", typ),
         ("parentUuid", p), ("message", mv)]) "message" = some mv := fun _ => rfl
    have hts2 : ∀ (mv : JVal), pyIndex (JVal.obj
        [("uuid", uuid), ("sessionId", sid), ("timestamp", ts), ("type", typ),
         ("parentUuid", p), ("message", mv)]) "timestamp" = some ts := fun _ => rfl
    have huu : ∀ (mv : JVal), pyIndex (JVal.obj
        [("uuid", uuid), ("sessionId", sid), ("timestamp", ts), ("type", typ),
         ("parentUuid", p), ("message", mv)]) "uuid" = some uuid := fun _ => rfl
    have hpu : ∀ (mv : JVal), (JVal.obj
        [("uuid", uuid), ("sessionId", sid), ("timestamp", ts), ("type", typ),
         ("parentUuid", p), ("message", mv)]).lookup "parentUuid" = some p := fun _ => rfl
    have hrole : ∀ (mv : JVal), (JVal.obj [("role", role), ("content", mv)]).lookup "role"
        = some role := fun _ => rfl
    have hcont : ∀ (mv : JVal), (JVal.obj [("role", role), ("content", mv)]).lookup "content"
        = some mv := fun _ => rfl
    unfold extractMessageData mkRawLine
    simp only [List.cons_append, List.nil_append, hp,
      hmsg, hts2, huu, hpu, hrole, hcont, Option.getD, hcc, htc]

end JsonlParser

/-- C10: a `tool_use` content block missing its `id` or its `name` field
contributes nothing at all: `parse_line` returns exactly what it returns
on the same line with the block removed — it still succeeds when the
rest is valid, the block yields no `ToolUsage` and no error, and a later
`tool_result` referencing that block's id is ignored. -/
theorem parseLine_skips_defective_tool_use (fresh : Nat) (st : JsonlParser.Stats)
    (uuid sid ts typ role : JVal) (parent : Option JVal) (pre post : List JVal) (bad : JVal)
    (htype : bad.lookup "type" = some (.str "tool_use"))
    (hmiss : bad.lookup "id" = none ∨ bad.lookup "name" = none) :
    JsonlParser.parseLine fresh st (some (JsonlParser.mkRawLine uuid sid ts typ parent role
        (.arr (pre ++ bad :: post))))
      = JsonlParser.parseLine fresh st (some (JsonlParser.mkRawLine uuid sid ts typ parent role
        (.arr (pre ++ post)))) := by
  have h := JsonlParser.extractMessageData_content_congr fresh uuid sid ts typ role parent
    (.arr (pre ++ bad :: post)) (.arr (pre ++ post))
    (JsonlParser.extractContent_skips_non_text pre post bad htype)
    (JsonlParser.extractToolUsage_skips_defective pre post bad htype hmiss)
  unfold JsonlParser.parseLine
  simp only [h]

/-- Witness for C10: a name-less `tool_use` with id `"t1"` followed by a
`tool_result` for `"t1"` parses exactly like the file without the
defective block (and in particular succeeds). -/
theorem parseLine_skips_defective_tool_use_witness :
    JsonlParser.parseLine 0 JsonlParser.initStats (some (JsonlParser.mkRawLine (.str "m1")
        (.str "S") (.str "2024-01-15T10:30:00Z") (.str "message") none (.str "assistant")
        (.arr [JVal.obj [("type", .str "tool_use"), ("id", .str "t1")], resultBlockT1])))
      = JsonlParser.parseLine 0 JsonlParser.initStats (some (JsonlParser.mkRawLine (.str "m1")
        (.str "S") (.str "2024-01-15T10:30:00Z") (.str "message") none (.str "assistant")
        (.arr [resultBlockT1]))) :=
  parseLine_skips_defective_tool_use 0 JsonlParser.initStats (.str "m1") (.str "S")
    (.str "2024-01-15T10:30:00Z") (.str "message") (.str "assistant") none []
    [resultBlockT1] (JVal.obj [("type", .str "tool_use"), ("id", .str "t1")])
    rfl (Or.inr rfl)

namespace JsonlParser

/-- Assigning a key in the `tool_calls` dict makes it look up to the
assigned index. -/
theorem lookupCall_setCall_self (c : List (JVal × Nat)) (j : JVal) (v : Nat) :
    lookupCall (setCall c j v) j = some v := by
  induction c with
  | nil => simp [setCall, lookupCall, JVal.beq_iff]
  | cons p rest ih =>
    rcases p with ⟨k, w⟩
    by_cases hk : JVal.beq k j = true
    · simp [setCall, hk, lookupCall, JVal.beq_iff]
    · have hk2 : JVal.beq j k = false := by
        rcases hbeq : JVal.beq j k with _ | _
        · rfl
        · exact absurd (((JVal.beq_iff k j).mpr ((JVal.beq_iff j k).mp hbeq).symm)) (by simp [hk])
      simp [setCall, hk, lookupCall, hk2, ih]

/-- Assigning one key leaves lookups of other keys unchanged. -/
theorem lookupCall_setCall_ne (c : List (JVal × Nat)) (j : JVal) (v : Nat) (i : JVal)
    (hne : i ≠ j) :
    lookupCall (setCall c j v) i = lookupCall c i := by
  induction c with
  | nil =>
    have : JVal.beq i j = false := by
      rcases hbeq : JVal.beq i j with _ | _
      · rfl
      · exact absurd ((JVal.beq_iff i j).mp hbeq) hne
    simp [setCall, lookupCall, this]
  | cons p rest ih =>
    rcases p with ⟨k, w⟩
    by_cases hk : JVal.beq k j = true
    · have hkj : k = j := (JVal.beq_iff k j).mp hk
      subst hkj
      have h1 : JVal.beq i k = false := by
        rcases hbeq : JVal.beq i k with _ | _
        · rfl
        · exact absurd ((JVal.beq_iff i k).mp hbeq) hne
      simp [setCall, hk, lookupCall, h1]
    · simp only [setCall, hk, Bool.false_eq_true, if_false, lookupCall]
      by_cases h1 : JVal.beq i k = true
      · simp [h1]
      · simp [h1, ih]

/-- Every entry after an assignment is the new binding or an old entry. -/
theorem setCall_mem (c : List (JVal × Nat)) (j : JVal) (v : Nat) :
    ∀ p ∈ setCall c j v, p = (j, v) ∨ p ∈ c := by
  induction c with
  | nil => intro p hp; simp [setCall] at hp; left; exact hp
  | cons q rest ih =>
    intro p hp
    rcases q with ⟨k, w⟩
    by_cases hk : JVal.beq k j = true
    · simp only [setCall, hk, if_true, List.mem_cons] at hp
      rcases hp with hp | hp
      · left; exact hp
      · right; exact List.mem_cons_of_mem _ hp
    · simp only [setCall, hk, Bool.false_eq_true, if_false, List.mem_cons] at hp
      rcases hp with hp | hp
      · right; simp [hp]
      · rcases ih p hp with h | h
        · left; exact h
        · right; exact List.mem_cons_of_mem _ h

/-- Unfolding the valid-tool-use count over a cons. -/
theorem countValidToolUses_cons (b : JVal) (rest : List JVal) :
    countValidToolUses (b :: rest)
      = (if isValidToolUse b then 1 else 0) + countValidToolUses rest := by
  simp only [countValidToolUses, List.filter_cons]
  by_cases hb : isValidToolUse b = true
  · simp [hb]
    omega
  · simp [hb]

end JsonlParser

namespace JsonlParser

/-- Case analysis of one loop iteration: a successful `toolStep` either
skips the block (and, for a `tool_result`, only when its id is not
recorded), registers a valid `tool_use`, or applies a matched
`tool_result` to the recorded index. -/
theorem toolStep_inv (b : JVal) (t : List ToolUsage) (c : List (JVal × Nat))
    (t2 : List ToolUsage) (c2 : List (JVal × Nat))
    (h : toolStep b t c = some (t2, c2)) :
    (t2 = t ∧ c2 = c ∧ isValidToolUse b = false
      ∧ (∀ k, b.lookup "type" = some (.str "tool_result") →
          b.lookup "tool_use_id" = some k → lookupCall c k = none))
    ∨ (∃ j tu, isValidToolUse b = true ∧ b.lookup "id" = some j
        ∧ t2 = t ++ [tu] ∧ c2 = setCall c j t.length)
    ∨ (∃ k v cur, b.lookup "type" = some (.str "tool_result")
        ∧ b.lookup "tool_use_id" = some k ∧ lookupCall c k = some v ∧ t[v]? = some cur
        ∧ t2 = t.set v (applyMatch cur b) ∧ c2 = c ∧ isValidToolUse b = false) := by
  rcases b with _ | bb | q | s0 | xs | fs
  · simp only [toolStep, Option.some.injEq, Prod.mk.injEq] at h
    exact Or.inl ⟨h.1.symm, h.2.symm, rfl, fun k h1 _ => by simp [JVal.lookup] at h1⟩
  · simp only [toolStep, Option.some.injEq, Prod.mk.injEq] at h
    exact Or.inl ⟨h.1.symm, h.2.symm, rfl, fun k h1 _ => by simp [JVal.lookup] at h1⟩
  · simp only [toolStep, Option.some.injEq, Prod.mk.injEq] at h
    exact Or.inl ⟨h.1.symm, h.2.symm, rfl, fun k h1 _ => by simp [JVal.lookup] at h1⟩
  · simp only [toolStep, Option.some.injEq, Prod.mk.injEq] at h
    exact Or.inl ⟨h.1.symm, h.2.symm, rfl, fun k h1 _ => by simp [JVal.lookup] at h1⟩
  · simp only [toolStep, Option.some.injEq, Prod.mk.injEq] at h
    exact Or.inl ⟨h.1.symm, h.2.symm, rfl, fun k h1 _ => by simp [JVal.lookup] at h1⟩
  · cases hty : (JVal.obj fs).lookup "type" with
    | none =>
      simp only [toolStep, hty, Option.some.injEq, Prod.mk.injEq] at h
      refine Or.inl ⟨h.1.symm, h.2.symm, ?_, ?_⟩
      · simp [isValidToolUse, hty]
      · intro k h1 h2
        simp at h1
    | some v =>
      simp only [toolStep, hty] at h
      split at h
      · rename_i heqv
        have hv : v = .str "tool_use" := by injection heqv
        subst hv
        split at h
        · rename_i idVal nameVal hid hnm
          split at h
          · rename_i htr
            split at h
            · rename_i tu hmk
              simp only [Option.some.injEq, Prod.mk.injEq] at h
              refine Or.inr (Or.inl ⟨idVal, tu, ?_, hid, h.1.symm, h.2.symm⟩)
              simp [isValidToolUse, hty, hid, hnm, truthyOpt, htr]
            · simp at h
          · rename_i htr
            simp only [Option.some.injEq, Prod.mk.injEq] at h
            refine Or.inl ⟨h.1.symm, h.2.symm, ?_, ?_⟩
            · have hf : (idVal.truthy && nameVal.truthy) = false := by
                revert htr
                cases (idVal.truthy && nameVal.truthy) <;> simp
              simp [isValidToolUse, hty, hid, hnm, truthyOpt, hf]
            · intro k hres h2
              simp at hres
        · rename_i hcatch
          simp only [Option.some.injEq, Prod.mk.injEq] at h
          refine Or.inl ⟨h.1.symm, h.2.symm, ?_, ?_⟩
          · cases hid : (JVal.obj fs).lookup "id" with
            | none => simp [isValidToolUse, hty, hid, truthyOpt]
            | some iv =>
              cases hnm : (JVal.obj fs).lookup "name" with
              | none => simp [isValidToolUse, hty, hid, hnm, truthyOpt]
              | some nv => exact (hcatch iv nv hid hnm).elim
          · intro k hres h2
            simp at hres
      · rename_i heqv
        have hv : v = .str "tool_result" := by injection heqv
        subst hv
        split at h
        · rename_i hk
          simp only [Option.some.injEq, Prod.mk.injEq] at h
          refine Or.inl ⟨h.1.symm, h.2.symm, ?_, ?_⟩
          · simp [isValidToolUse, hty]
          · intro k _ h2
            rw [hk] at h2
            simp at h2
        · rename_i key hk
          split at h
          · rename_i hlk
            simp only [Option.some.injEq, Prod.mk.injEq] at h
            refine Or.inl ⟨h.1.symm, h.2.symm, ?_, ?_⟩
            · simp [isValidToolUse, hty]
            · intro k2 _ h2
              rw [hk] at h2
              injection h2 with h3
              subst h3
              exact hlk
          · rename_i idx hlk
            split at h
            · simp at h
            · rename_i out hout
              split at h
              · simp at h
              · rename_i cur hcur
                simp only [Option.some.injEq, Prod.mk.injEq] at h
                refine Or.inr (Or.inr ⟨key, idx, cur, rfl, hk, hlk, hcur, ?_, h.2.symm, ?_⟩)
                · rw [← h.1]
                  simp [applyMatch, hout]
                · simp [isValidToolUse, hty]
      · rename_i hne1 hne2
        simp only [Option.some.injEq, Prod.mk.injEq] at h
        refine Or.inl ⟨h.1.symm, h.2.symm, ?_, ?_⟩
        · simp only [isValidToolUse, hty]
        · intro k hres h2
          exact (hne2 hres).elim


end JsonlParser

namespace JsonlParser

/-- A registered tool-use block has type `tool_use`. -/
theorem isValidToolUse_type (b : JVal) (h : isValidToolUse b = true) :
    b.lookup "type" = some (.str "tool_use") := by
  rcases b with _ | bb | q | s0 | xs | fs
  · simp [isValidToolUse] at h
  · simp [isValidToolUse] at h
  · simp [isValidToolUse] at h
  · simp [isValidToolUse] at h
  · simp [isValidToolUse] at h
  · cases hty : (JVal.obj fs).lookup "type" with
    | none => simp [isValidToolUse, hty] at h
    | some v =>
      simp only [isValidToolUse, hty] at h
      split at h
      · rename_i heq
        exact heq
      · simp at h

/-- What a matching `tool_result` block must look like. -/
theorem of_isMatchingResult (i b : JVal) (h : isMatchingResult i b = true) :
    b.lookup "type" = some (.str "tool_result") ∧ b.lookup "tool_use_id" = some i := by
  rcases b with _ | bb | q | s0 | xs | fs
  · simp [isMatchingResult] at h
  · simp [isMatchingResult] at h
  · simp [isMatchingResult] at h
  · simp [isMatchingResult] at h
  · simp [isMatchingResult] at h
  · cases hty : (JVal.obj fs).lookup "type" with
    | none => simp [isMatchingResult, hty] at h
    | some v =>
      simp only [isMatchingResult, hty] at h
      split at h
      · rename_i heq
        cases hk : (JVal.obj fs).lookup "tool_use_id" with
        | none => rw [hk] at h; simp at h
        | some k =>
          rw [hk] at h
          simp only at h
          have hki : k = i := (JVal.beq_iff k i).mp h
          subst hki
          exact ⟨heq, rfl⟩
      · simp at h

/-- A `tool_result` block whose `tool_use_id` equals the given id
matches it. -/
theorem isMatchingResult_of (i b : JVal)
    (h1 : b.lookup "type" = some (.str "tool_result"))
    (h2 : b.lookup "tool_use_id" = some i) :
    isMatchingResult i b = true := by
  rcases b with _ | bb | q | s0 | xs | fs
  · simp [JVal.lookup] at h1
  · simp [JVal.lookup] at h1
  · simp [JVal.lookup] at h1
  · simp [JVal.lookup] at h1
  · simp [JVal.lookup] at h1
  · simp [isMatchingResult, h1, h2, JVal.beq_iff]

/-- A successful `tool_calls` lookup comes from an entry of the dict. -/
theorem lookupCall_mem (c : List (JVal × Nat)) (k : JVal) (v : Nat)
    (h : lookupCall c k = some v) : (k, v) ∈ c := by
  induction c with
  | nil => simp [lookupCall] at h
  | cons p rest ih =>
    rcases p with ⟨k2, w⟩
    by_cases hb : JVal.beq k k2 = true
    · have hk : k = k2 := (JVal.beq_iff k k2).mp hb
      simp only [lookupCall, hb, if_true, Option.some.injEq] at h
      subst hk h
      exact List.mem_cons_self _ _
    · simp only [lookupCall, hb, Bool.false_eq_true, if_false] at h
      exact List.mem_cons_of_mem _ (ih h)

end JsonlParser

namespace JsonlParser

/-- Tracking one registered tool through the rest of the loop: if the
remaining blocks register no `tool_use` with the tracked id, the final
entry at the tracked index is the tracked value with every matching
`tool_result` applied in order. -/
theorem go_post_tracking (i : JVal) (idx : Nat) :
    ∀ (post : List JVal) (t : List ToolUsage) (c : List (JVal × Nat)) (cur : ToolUsage)
      (ts : List ToolUsage),
    (∀ b ∈ post, isValidToolUse b = true → b.lookup "id" ≠ some i) →
    lookupCall c i = some idx →
    t[idx]? = some cur →
    (∀ p ∈ c, p.2 = idx → p.1 = i) →
    extractToolUsageGo post t c = some ts →
    ts[idx]? = some ((post.filter (isMatchingResult i)).foldl applyMatch cur) := by
  intro post
  induction post with
  | nil =>
    intro t c cur ts hpost hlk hcur hvals hgo
    simp only [extractToolUsageGo, Option.some.injEq] at hgo
    subst hgo
    simpa using hcur
  | cons b rest ih =>
    intro t c cur ts hpost hlk hcur hvals hgo
    have hidx : idx < t.length := by
      by_contra hn
      rw [List.getElem?_eq_none (by omega)] at hcur
      simp at hcur
    simp only [extractToolUsageGo] at hgo
    cases hs : toolStep b t c with
    | none => rw [hs] at hgo; simp at hgo
    | some p =>
      rcases p with ⟨t2, c2⟩
      rw [hs] at hgo
      simp only at hgo
      have hpostr : ∀ b2 ∈ rest, isValidToolUse b2 = true → b2.lookup "id" ≠ some i :=
        fun b2 hb2 => hpost b2 (List.mem_cons_of_mem _ hb2)
      rcases toolStep_inv b t c t2 c2 hs with
        ⟨he1, he2, hval, hres⟩ | ⟨j, tu, hval, hid, he1, he2⟩ |
        ⟨k, v, cur2, hty2, hk2, hlk2, hcur2, he1, he2, hval⟩
      · subst he1
        subst he2
        have hbm : isMatchingResult i b = false := by
          rcases hbm : isMatchingResult i b with _ | _
          · rfl
          · obtain ⟨hb1, hb2⟩ := of_isMatchingResult i b hbm
            rw [hres i hb1 hb2] at hlk
            simp at hlk
        rw [List.filter_cons_of_neg (by simp [hbm])]
        exact ih t2 c2 cur ts hpostr hlk hcur hvals hgo
      · have hji : j ≠ i := by
          intro he
          exact hpost b (List.mem_cons_self _ _) hval (he ▸ hid)
        subst he1
        subst he2
        have hbm : isMatchingResult i b = false := by
          rcases hbm : isMatchingResult i b with _ | _
          · rfl
          · obtain ⟨hb1, _⟩ := of_isMatchingResult i b hbm
            rw [isValidToolUse_type b hval] at hb1
            simp at hb1
        rw [List.filter_cons_of_neg (by simp [hbm])]
        refine ih _ _ cur ts hpostr ?_ ?_ ?_ hgo
        · rw [lookupCall_setCall_ne c j t.length i (Ne.symm hji)]
          exact hlk
        · rw [List.getElem?_append_left hidx]
          exact hcur
        · intro p hp hpv
          rcases setCall_mem c j t.length p hp with hcase | hcase
          · exfalso
            rw [hcase] at hpv
            simp at hpv
            omega
          · exact hvals p hcase hpv
      · rw [he1] at hgo
        rw [he2] at hgo
        by_cases hki : k = i
        · rw [hki] at hlk2 hk2
          have hvidx : v = idx := by
            have h2 := hlk2.symm.trans hlk
            injection h2
          subst hvidx
          have hcc : cur2 = cur := by
            have h2 := hcur2.symm.trans hcur
            injection h2
          subst hcc
          have hbm : isMatchingResult i b = true := isMatchingResult_of i b hty2 hk2
          rw [List.filter_cons_of_pos (by simp [hbm])]
          refine ih _ _ (applyMatch cur2 b) ts hpostr hlk ?_ hvals hgo
          rw [List.getElem?_set_self hidx]
        · have hvne : v ≠ idx := by
            intro hv
            exact hki (hvals (k, v) (lookupCall_mem c k v hlk2) hv)
          have hbm : isMatchingResult i b = false := by
            rcases hbm : isMatchingResult i b with _ | _
            · rfl
            · obtain ⟨hb1, hb2⟩ := of_isMatchingResult i b hbm
              rw [hk2] at hb2
              injection hb2 with hb3
              exact absurd hb3 hki
          rw [List.filter_cons_of_neg (by simp [hbm])]
          refine ih _ _ cur ts hpostr hlk ?_ hvals hgo
          rw [List.getElem?_set_ne hvne]
          exact hcur

end JsonlParser

namespace JsonlParser

/-- One-step unfolding of the stateful loop. -/
theorem goPartial_step (b : JVal) (rest : List JVal) (t : List ToolUsage)
    (c : List (JVal × Nat)) :
    goPartial (b :: rest) t c
      = match toolStep b t c with
        | none => none
        | some (t2, c2) => goPartial rest t2 c2 := rfl

/-- Processing a prefix that registers no `tool_use` with the tracked id
leaves the id unrecorded, adds one tool per valid `tool_use`, and keeps
all recorded indices in bounds. -/
theorem goPartial_pre_inv (i : JVal) :
    ∀ (pre : List JVal) (t : List ToolUsage) (c : List (JVal × Nat))
      (t2 : List ToolUsage) (c2 : List (JVal × Nat)),
    (∀ b ∈ pre, isValidToolUse b = true → b.lookup "id" ≠ some i) →
    goPartial pre t c = some (t2, c2) →
    lookupCall c i = none →
    (∀ p ∈ c, p.2 < t.length) →
    lookupCall c2 i = none ∧ t.length + countValidToolUses pre = t2.length
      ∧ (∀ p ∈ c2, p.2 < t2.length) := by
  intro pre
  induction pre with
  | nil =>
    intro t c t2 c2 hpre hgo hlk hbound
    simp only [goPartial, Option.some.injEq, Prod.mk.injEq] at hgo
    obtain ⟨h1, h2⟩ := hgo
    subst h1
    subst h2
    exact ⟨hlk, by simp [countValidToolUses], hbound⟩
  | cons b rest ih =>
    intro t c t2 c2 hpre hgo hlk hbound
    rw [goPartial_step] at hgo
    cases hs : toolStep b t c with
    | none => rw [hs] at hgo; simp at hgo
    | some p =>
      rcases p with ⟨t3, c3⟩
      rw [hs] at hgo
      simp only at hgo
      have hprer : ∀ b2 ∈ rest, isValidToolUse b2 = true → b2.lookup "id" ≠ some i :=
        fun b2 hb2 => hpre b2 (List.mem_cons_of_mem _ hb2)
      rcases toolStep_inv b t c t3 c3 hs with
        ⟨he1, he2, hval, hres⟩ | ⟨j, tu, hval, hid, he1, he2⟩ |
        ⟨k, v, cur2, hty2, hk2, hlk2, hcur2, he1, he2, hval⟩
      · rw [he1] at hgo
        rw [he2] at hgo
        obtain ⟨g1, g2, g3⟩ := ih t c t2 c2 hprer hgo hlk hbound
        refine ⟨g1, ?_, g3⟩
        rw [countValidToolUses_cons, hval]
        simpa using g2
      · have hji : j ≠ i := by
          intro he
          exact hpre b (List.mem_cons_self _ _) hval (he ▸ hid)
        rw [he1] at hgo
        rw [he2] at hgo
        have hlk3 : lookupCall (setCall c j t.length) i = none := by
          rw [lookupCall_setCall_ne c j t.length i (Ne.symm hji)]
          exact hlk
        have hbound3 : ∀ p ∈ setCall c j t.length, p.2 < (t ++ [tu]).length := by
          intro p hp
          rcases setCall_mem c j t.length p hp with hcase | hcase
          · rw [hcase]
            simp
          · have := hbound p hcase
            simp
            omega
        obtain ⟨g1, g2, g3⟩ := ih (t ++ [tu]) (setCall c j t.length) t2 c2 hprer hgo hlk3 hbound3
        refine ⟨g1, ?_, g3⟩
        rw [countValidToolUses_cons, hval]
        simp only [if_true]
        simp only [List.length_append, List.length_cons, List.length_nil] at g2
        omega
      · rw [he1] at hgo
        rw [he2] at hgo
        have hbound3 : ∀ p ∈ c, p.2 < (t.set v (applyMatch cur2 b)).length := by
          intro p hp
          have := hbound p hp
          simpa using this
        obtain ⟨g1, g2, g3⟩ := ih _ c t2 c2 hprer hgo hlk hbound3
        refine ⟨g1, ?_, g3⟩
        rw [countValidToolUses_cons, hval]
        simp only [List.length_set] at g2
        simpa using g2

end JsonlParser

namespace JsonlParser

/-- A successfully constructed `ToolUsage` starts `pending` with no
output. -/
theorem mkToolUsage_spec (nv inp : JVal) (tu : ToolUsage)
    (h : mkToolUsage nv inp = some tu) :
    tu.status = some "pending" ∧ tu.tool_output = none := by
  rcases nv with _ | bb | q | s0 | xs | fs <;> rcases inp with _ | b2 | q2 | s2 | xs2 | fs2 <;>
    simp [mkToolUsage] at h
  rw [← h]
  exact ⟨rfl, rfl⟩

end JsonlParser

/-- C6 (amended): in a message content list `pre ++ [u] ++ post` where
`u` is a `tool_use` block with truthy `id` and `name` and no other block
registers the same id, and extraction succeeds: `u` yields a `ToolUsage`
created with status `pending` and no output, placed at the index given
by the valid tool-uses before it; its final state is that pending value
with exactly the LATER `tool_result` blocks whose `tool_use_id` equals
the id applied in order (`tool_output = content`, `status = error` iff
`is_error` is truthy, else `success`).  With no later matching result it
stays `pending`/`null`; a `tool_result` whose id was never recorded,
including one appearing BEFORE its `tool_use`, is ignored.  (As stated,
the original claim fails both for a `tool_result` preceding its
`tool_use` and for matching results with non-dict content, where the
pydantic assignment raises and the line errors.) -/
theorem extractToolUsage_pairing (pre post : List JVal) (u i nm : JVal) (tu0 : ToolUsage)
    (ts : List ToolUsage)
    (hty : u.lookup "type" = some (.str "tool_use"))
    (hid : u.lookup "id" = some i)
    (hnm : u.lookup "name" = some nm)
    (hit : i.truthy = true) (hnt : nm.truthy = true)
    (htu : JsonlParser.mkToolUsage nm ((u.lookup "input").getD (.obj [])) = some tu0)
    (hpre : ∀ b ∈ pre, JsonlParser.isValidToolUse b = true → b.lookup "id" ≠ some i)
    (hpost : ∀ b ∈ post, JsonlParser.isValidToolUse b = true → b.lookup "id" ≠ some i)
    (hok : JsonlParser.extractToolUsage (.arr (pre ++ u :: post)) = some ts) :
    tu0.status = some "pending" ∧ tu0.tool_output = none
    ∧ ts[JsonlParser.countValidToolUses pre]?
        = some ((post.filter (JsonlParser.isMatchingResult i)).foldl JsonlParser.applyMatch tu0) := by
  obtain ⟨hst, hout⟩ := JsonlParser.mkToolUsage_spec _ _ _ htu
  refine ⟨hst, hout, ?_⟩
  unfold JsonlParser.extractToolUsage at hok
  simp only at hok
  rw [JsonlParser.go_append pre (u :: post) [] []] at hok
  cases hpp : JsonlParser.goPartial pre [] [] with
  | none => rw [hpp] at hok; simp at hok
  | some p =>
    rcases p with ⟨t0, c0⟩
    rw [hpp] at hok
    simp only at hok
    obtain ⟨g1, g2, g3⟩ := JsonlParser.goPartial_pre_inv i pre [] [] t0 c0 hpre hpp rfl
      (by intro p hp; simp at hp)
    simp only [List.length_nil, Nat.zero_add] at g2
    have hstep : JsonlParser.toolStep u t0 c0 = some (t0 ++ [tu0],
        JsonlParser.setCall c0 i t0.length) := by
      rcases u with _ | bb | q | s0 | xs | fs
      · simp [JVal.lookup] at hty
      · simp [JVal.lookup] at hty
      · simp [JVal.lookup] at hty
      · simp [JVal.lookup] at hty
      · simp [JVal.lookup] at hty
      · simp [JsonlParser.toolStep, hty, hid, hnm, hit, hnt, htu]
    simp only [JsonlParser.extractToolUsageGo, hstep] at hok
    have htrack := JsonlParser.go_post_tracking i t0.length post (t0 ++ [tu0])
      (JsonlParser.setCall c0 i t0.length) tu0 ts hpost
      (JsonlParser.lookupCall_setCall_self c0 i t0.length)
      (List.getElem?_concat_length t0 tu0)
      ?_ hok
    · rw [g2]
      exact htrack
    · intro p hp hpv
      rcases JsonlParser.setCall_mem c0 i t0.length p hp with hcase | hcase
      · rw [hcase]
      · exact absurd hpv (Nat.ne_of_lt (g3 p hcase))

/-- C6 (counterexample): a `tool_result` for `"t1"` placed BEFORE the
`tool_use` with id `"t1"` in the same message is ignored — the
`ToolUsage` stays `pending` with `tool_output = None`, although a
`tool_result` with the same `tool_use_id` appears in the same message. -/
theorem extractToolUsage_result_before_use_counterexample :
    JsonlParser.extractToolUsage (.arr [resultBlockT1, useBlockT1])
      = some [{ tool_name := "Read", tool_input := [("file_path", JVal.str "/f.py")],
                tool_output := none, status := some "pending" }]
    ∧ resultBlockT1.lookup "tool_use_id" = some (.str "t1")
    ∧ useBlockT1.lookup "id" = some (.str "t1") := ⟨rfl, rfl, rfl⟩

/-- Witness for the amended C6: `[tool_use "t1" Read, tool_result "t1"]`
yields one `ToolUsage` that ends `success` with the result content. -/
theorem extractToolUsage_pairing_witness :
    ({ tool_name := "Read", tool_input := [("file_path", JVal.str "/f.py")],
       tool_output := none, status := some "pending" } : ToolUsage).status = some "pending"
    ∧ ({ tool_name := "Read", tool_input := [("file_path", JVal.str "/f.py")],
         tool_output := none, status := some "pending" } : ToolUsage).tool_output = none
    ∧ ([({ tool_name := "Read", tool_input := [("file_path", JVal.str "/f.py")],
           tool_output := some [("out", JVal.str "OK")],
           status := some "success" } : ToolUsage)])[JsonlParser.countValidToolUses []]?
      = some (([resultBlockT1].filter (JsonlParser.isMatchingResult (.str "t1"))).foldl
          JsonlParser.applyMatch
          { tool_name := "Read", tool_input := [("file_path", JVal.str "/f.py")],
            tool_output := none, status := some "pending" }) :=
  extractToolUsage_pairing [] [resultBlockT1] useBlockT1 (.str "t1") (.str "Read")
    { tool_name := "Read", tool_input := [("file_path", JVal.str "/f.py")],
      tool_output := none, status := some "pending" }
    [{ tool_name := "Read", tool_input := [("file_path", JVal.str "/f.py")],
       tool_output := some [("out", JVal.str "OK")], status := some "success" }]
    rfl rfl rfl rfl rfl rfl
    (by intro b hb; simp at hb)
    (by
      intro b hb hval
      simp only [List.mem_singleton] at hb
      subst hb
      exact absurd hval (by decide))
    rfl
